import Mathlib

/-!
# Verification of the playlist-import pipeline

A shallow embedding of the track-resolution pipeline (Normalizer, Resolver,
Batch Coordinator, Status Aggregator, Import Intake upsert) of the song-game
repository, together with proofs about the embedded operations.

The Convex database is modelled as explicit record lists; actions become pure
functions over an injected catalog-lookup capability; scheduling becomes a
fuel-indexed driver.  JavaScript semantics of the source are modelled
faithfully: `??` only falls back on `null`/`undefined`, `&&`-chains coerce to
truthiness (empty string / zero are falsy), and regex classes `\w`, `\s` keep
their JavaScript meaning.
-/

namespace SongGame

/-! ## Normalizer (`normalizeString`, `stringsSimilar` in convex/playlistImport) -/

/-- JavaScript regex `\w`: ASCII letters, digits and underscore. -/
def isWordChar (c : Char) : Bool :=
  ('a' ≤ c && c ≤ 'z') || ('A' ≤ c && c ≤ 'Z') || ('0' ≤ c && c ≤ '9') || c = '_'

/-- JavaScript regex `\s`: the whitespace code points matched by `\s`
(also the set removed by `String.prototype.trim`). -/
def isJsSpace (c : Char) : Bool :=
  c = ' ' || c = '\t' || c = '\n' || c.toNat = 11 || c.toNat = 12 || c = '\r' ||
  c.toNat = 0xa0 || c.toNat = 0x1680 ||
  (0x2000 ≤ c.toNat && c.toNat ≤ 0x200a) ||
  c.toNat = 0x2028 || c.toNat = 0x2029 || c.toNat = 0x202f ||
  c.toNat = 0x205f || c.toNat = 0x3000 || c.toNat = 0xfeff

/-- `String.prototype.toLowerCase`, on the ASCII fragment exercised by the
pipeline (code points outside `A`–`Z` are returned unchanged). -/
def jsToLower (c : Char) : Char :=
  if 65 ≤ c.toNat ∧ c.toNat ≤ 90 then Char.ofNat (c.toNat + 32) else c

/-- Scanner for `replace(/\s+/g, ' ')`; the flag records whether the previous
character belonged to a whitespace run (whose single `' '` is already
emitted). -/
def collapseAux : Bool → List Char → List Char
  | _, [] => []
  | inRun, c :: cs =>
    if isJsSpace c then
      if inRun then collapseAux true cs else ' ' :: collapseAux true cs
    else c :: collapseAux false cs

/-- `replace(/\s+/g, ' ')`: every maximal run of whitespace becomes one space. -/
def collapseWs (l : List Char) : List Char :=
  collapseAux false l

/-- Trailing-whitespace strip (the right half of `String.prototype.trim`). -/
def dropTrailingWs : List Char → List Char
  | [] => []
  | c :: cs =>
    match dropTrailingWs cs with
    | [] => if isJsSpace c then [] else [c]
    | r => c :: r

/-- `String.prototype.trim`: strip leading and trailing whitespace. -/
def trimChars (l : List Char) : List Char :=
  dropTrailingWs (l.dropWhile isJsSpace)

/-- `normalizeString` from `playlistImport.ts`: lowercase, delete every
character outside `[\w\s]`, collapse whitespace runs to one space, trim. -/
def normalizeString (s : String) : String :=
  ⟨trimChars (collapseWs ((s.data.map jsToLower).filter
      (fun c => isWordChar c || isJsSpace c)))⟩

/-- `split(' ')`: split on single space characters (JavaScript semantics:
the result is never empty and may contain empty words). -/
def splitOnSpace : List Char → List (List Char)
  | [] => [[]]
  | c :: cs =>
    match splitOnSpace cs with
    | w :: ws => if c = ' ' then [] :: w :: ws else (c :: w) :: ws
    | [] => if c = ' ' then [[], []] else [[c]]

/-- Walk of `new Set(...)` construction: `seen` holds the words already kept. -/
def uniqueAux (seen : List (List Char)) : List (List Char) → List (List Char)
  | [] => []
  | w :: ws =>
    if seen.contains w then uniqueAux seen ws
    else w :: uniqueAux (w :: seen) ws

/-- `new Set(...)` insertion order: first occurrences, duplicates dropped. -/
def uniqueWords (ws : List (List Char)) : List (List Char) :=
  uniqueAux [] ws

/-- `a.includes(b)`: `b` occurs as a contiguous substring of `a`. -/
def containsSub (a b : List Char) : Bool :=
  a.tails.any (fun t => b.isPrefixOf t)

/-- `stringsSimilar` from `playlistImport.ts`: exact equality, or substring
containment either way, or at least 80 % of the word sets overlapping
(`|A ∩ B| / max(|A|, |B|) ≥ 0.8`, compared exactly over the rationals). -/
def stringsSimilar (a b : String) : Bool :=
  if a = b then true
  else if containsSub a.data b.data || containsSub b.data a.data then true
  else
    let wordsA := uniqueWords (splitOnSpace a.data)
    let wordsB := uniqueWords (splitOnSpace b.data)
    let intersection := wordsA.filter (fun w => wordsB.contains w)
    decide (5 * intersection.length ≥ 4 * max wordsA.length wordsB.length)

/-! ## Data model (`playlists` / `playlistTracks` tables of the schema) -/

inductive TrackStatus
  | pending
  | ready
  | unmatched
deriving DecidableEq, Repr

inductive PlaylistStatus
  | importing
  | processing
  | ready
  | failed
deriving DecidableEq, Repr

/-- `source` enum: the source catalog of an import. -/
inductive MusicSource
  | spotify
  | appleMusic
deriving DecidableEq, Repr

/-- One `playlists` row. -/
structure PlaylistRec where
  id : Nat
  ownerUserId : String
  source : MusicSource
  sourcePlaylistId : String
  name : String
  description : Option String
  imageUrl : Option String
  importedAt : Nat
  status : PlaylistStatus
  totalTracks : Nat
  readyTracks : Nat
  unmatchedTracks : Nat
deriving DecidableEq, Repr

/-- One `playlistTracks` row. -/
structure TrackRec where
  id : Nat
  playlistId : Nat
  position : Nat
  status : TrackStatus
  title : String
  artistNames : List String
  releaseYear : Option Nat
  imageUrl : Option String
  spotifyTrackId : Option String
  isrc : Option String
  appleMusicId : Option String
  previewUrl : Option String
  unmatchedReason : Option String
deriving DecidableEq, Repr

/-- The database: the two tables plus a fresh-id counter for inserts. -/
structure DB where
  playlists : List PlaylistRec
  tracks : List TrackRec
  nextId : Nat
deriving DecidableEq, Repr

/-- `ctx.db.get('playlists', pid)`. -/
def playlistById (db : DB) (pid : Nat) : Option PlaylistRec :=
  db.playlists.find? (fun p => p.id == pid)

/-! ## Resolver (`resolveTrackToAppleMusic` in convex/playlistImport) -/

/-- A catalog entry as returned by the Apple Music wrapper actions. -/
structure AppleMusicTrack where
  appleMusicId : String
  title : String
  artistName : String
  albumName : String
  releaseYear : Nat
  releaseDate : Option String
  previewUrl : Option String
  artworkUrl : Option String
  isrc : Option String
deriving DecidableEq, Repr

/-- The injected catalog-lookup capability (`internal.appleMusic.*` actions);
`Except.error` models a thrown exception.  `searchByISRC isrc storefront`,
`searchCatalog query storefront limit`. -/
structure CatalogAPI where
  searchByISRC : String → String → Except String (Option AppleMusicTrack)
  searchCatalog : String → String → Nat → Except String (List AppleMusicTrack)

/-- The arguments of `resolveTrackToAppleMusic`. -/
structure ResolveArgs where
  trackId : Nat
  isrc : Option String
  title : String
  artist : String
  storefront : Option String
deriving DecidableEq, Repr

/-- The resolver's return value.  The source copies every field of the chosen
catalog entry into the `matched: true` object; that copy is the identity on
`AppleMusicTrack`, so the payload is carried whole. -/
inductive ResolveResult
  | matched (result : AppleMusicTrack)
  | unmatched (reason : String)
deriving DecidableEq, Repr

/-- Step 2 of the resolver: text search `"{title} {artist}"` with the top 5
candidates, scanning them in ranked order for the first whose normalized
title and artist are both similar, else falling back to the first result;
a thrown search is converted to `Unmatched "Search failed"`. -/
def resolveViaSearch (api : CatalogAPI) (args : ResolveArgs) : ResolveResult :=
  let storefront := args.storefront.getD "us"
  let searchQuery := args.title ++ " " ++ args.artist
  match api.searchCatalog searchQuery storefront 5 with
  | .error _ => .unmatched "Search failed"
  | .ok [] => .unmatched "No results found"
  | .ok (firstResult :: more) =>
    let normalizedTitle := normalizeString args.title
    let normalizedArtist := normalizeString args.artist
    match (firstResult :: more).find? (fun result =>
        stringsSimilar normalizedTitle (normalizeString result.title) &&
        stringsSimilar normalizedArtist (normalizeString result.artistName)) with
    | some result => .matched result
    | none => .matched firstResult

/-- `resolveTrackToAppleMusic`: ISRC lookup first (a hit returns immediately,
a miss or a thrown lookup falls through), then the text search.  The source
guards the lookup with `if (args.isrc)`, which under JavaScript truthiness is
false for an absent *and* for an empty-string ISRC: both go straight to the
text search. -/
def resolveTrackToAppleMusic (api : CatalogAPI) (args : ResolveArgs) :
    ResolveResult :=
  let storefront := args.storefront.getD "us"
  match args.isrc with
  | some isrc =>
    if isrc = "" then resolveViaSearch api args
    else
      match api.searchByISRC isrc storefront with
      | .ok (some isrcResult) => .matched isrcResult
      | .ok none => resolveViaSearch api args
      | .error _ => resolveViaSearch api args
  | none => resolveViaSearch api args

/-! ## Internal queries and mutations (convex/playlistImportInternal.ts) -/

/-- The projection returned by `getPendingTracks`. -/
structure PendingTrack where
  id : Nat
  title : String
  artistNames : List String
  isrc : Option String
deriving DecidableEq, Repr

/-- The rows matched by the `by_playlistId_and_status` index scan for
`(playlistId, 'pending')`. -/
def pendingOf (tracks : List TrackRec) (pid : Nat) : List TrackRec :=
  tracks.filter (fun t => t.playlistId == pid && t.status == TrackStatus.pending)

/-- Modelled from the spec: the schema file defining the
`by_playlistId_and_status` index is not among the sources; per the spec the
pending fetch is "ordered by `position`", so the index scan is modelled as
returning the matching rows in ascending `position` order. -/
def indexScanPending (db : DB) (pid : Nat) : List TrackRec :=
  List.insertionSort (fun a b => a.position ≤ b.position) (pendingOf db.tracks pid)

/-- The `.take(limit)` on the pending index scan. -/
def getPendingTracksQuery (db : DB) (pid : Nat) (limit : Nat) : List TrackRec :=
  (indexScanPending db pid).take limit

/-- `getPendingTracks`: up to `limit` pending rows of the playlist, projected
to `{_id, title, artistNames, isrc}`. -/
def getPendingTracks (db : DB) (pid : Nat) (limit : Nat) : List PendingTrack :=
  (getPendingTracksQuery db pid limit).map
    (fun t => { id := t.id, title := t.title, artistNames := t.artistNames, isrc := t.isrc })

/-- The arguments of `markTrackReady`. -/
structure MarkReadyArgs where
  trackId : Nat
  appleMusicId : String
  title : String
  artistNames : List String
  releaseYear : Nat
  previewUrl : Option String
  imageUrl : Option String
  isrc : Option String
deriving DecidableEq, Repr

/-- `markTrackReady`: patch the track to `ready` with the Apple Music data
(optional args patched through as given: a `none` clears the field, matching
Convex's treatment of `undefined` in a patch). -/
def markTrackReady (db : DB) (args : MarkReadyArgs) : DB :=
  { db with tracks := db.tracks.map (fun t =>
      if t.id = args.trackId then
        { t with
          status := TrackStatus.ready
          appleMusicId := some args.appleMusicId
          title := args.title
          artistNames := args.artistNames
          releaseYear := some args.releaseYear
          previewUrl := args.previewUrl
          imageUrl := args.imageUrl
          isrc := args.isrc }
      else t) }

/-- `markTrackUnmatched`: patch the track to `unmatched` with the reason. -/
def markTrackUnmatched (db : DB) (trackId : Nat) (reason : String) : DB :=
  { db with tracks := db.tracks.map (fun t =>
      if t.id = trackId then
        { t with status := TrackStatus.unmatched, unmatchedReason := some reason }
      else t) }

/-- The counts `updatePlaylistCounts` returns. -/
structure Counts where
  pendingCount : Nat
  readyCount : Nat
  unmatchedCount : Nat
deriving DecidableEq, Repr

/-- `updatePlaylistCounts` (the Status Aggregator): count the playlist's
tracks by status, set the playlist's `readyTracks`/`unmatchedTracks`, and set
its status to `ready` when no track is pending, else `processing`. -/
def updatePlaylistCounts (db : DB) (pid : Nat) : DB × Counts :=
  let allTracks := db.tracks.filter (fun t => t.playlistId == pid)
  let pendingCount := (allTracks.filter (fun t => t.status == TrackStatus.pending)).length
  let readyCount := (allTracks.filter (fun t => t.status == TrackStatus.ready)).length
  let unmatchedCount := (allTracks.filter (fun t => t.status == TrackStatus.unmatched)).length
  let newStatus : PlaylistStatus :=
    if pendingCount = 0 then PlaylistStatus.ready else PlaylistStatus.processing
  let db' := { db with playlists := db.playlists.map (fun p =>
      if p.id = pid then
        { p with status := newStatus, readyTracks := readyCount, unmatchedTracks := unmatchedCount }
      else p) }
  (db', { pendingCount := pendingCount, readyCount := readyCount, unmatchedCount := unmatchedCount })

/-! ## Batch Coordinator (`processPlaylistBatch` in convex/playlistImport) -/

def BATCH_SIZE : Nat := 10

def RATE_LIMIT_DELAY_MS : Nat := 100

/-- The resolver call the coordinator issues for one fetched track: only the
first artist name is passed (`track.artistNames[0] ?? 'Unknown Artist'`). -/
def trackResolveArgs (storefront : String) (t : PendingTrack) : ResolveArgs :=
  { trackId := t.id
    isrc := t.isrc
    title := t.title
    artist := t.artistNames.headD "Unknown Artist"
    storefront := some storefront }

/-- Persist one resolution outcome: `Matched` → `markTrackReady` (with the
single canonical artist), `Unmatched` → `markTrackUnmatched`. -/
def persistResolution (api : CatalogAPI) (storefront : String) (db : DB)
    (t : PendingTrack) : DB :=
  match resolveTrackToAppleMusic api (trackResolveArgs storefront t) with
  | .matched result =>
    markTrackReady db
      { trackId := t.id
        appleMusicId := result.appleMusicId
        title := result.title
        artistNames := [result.artistName]
        releaseYear := result.releaseYear
        previewUrl := result.previewUrl
        imageUrl := result.artworkUrl
        isrc := result.isrc }
  | .unmatched reason => markTrackUnmatched db t.id reason

/-- The sequential per-track loop of one batch; returns the updated database,
the resolver calls issued in order, and the rate-limit delays (in ms) awaited
after each track. -/
def runBatchLoop (api : CatalogAPI) (storefront : String) :
    List PendingTrack → DB → DB × List ResolveArgs × List Nat
  | [], db => (db, [], [])
  | t :: ts, db =>
    let args := trackResolveArgs storefront t
    let db' := persistResolution api storefront db t
    let rest := runBatchLoop api storefront ts db'
    (rest.1, args :: rest.2.1, RATE_LIMIT_DELAY_MS :: rest.2.2)

/-- The observable log of one coordinator invocation. -/
structure InvLog where
  resolveCalls : List ResolveArgs
  delaysMs : List Nat
  countsAfter : Counts
  nextRunDelayMs : Option Nat
deriving DecidableEq, Repr

/-- One invocation of `processPlaylistBatch`: fetch up to `BATCH_SIZE` pending
tracks; when none remain, recompute counts and stop; otherwise resolve them
sequentially, recompute counts, and schedule a successor with delay 0 exactly
when some tracks are still pending. -/
def processPlaylistBatch (api : CatalogAPI) (pid : Nat)
    (storefrontArg : Option String) (db : DB) : DB × InvLog :=
  let storefront := storefrontArg.getD "us"
  let pendingTracks := getPendingTracks db pid BATCH_SIZE
  if pendingTracks.length = 0 then
    let done := updatePlaylistCounts db pid
    (done.1, { resolveCalls := [], delaysMs := [], countsAfter := done.2, nextRunDelayMs := none })
  else
    let looped := runBatchLoop api storefront pendingTracks db
    let counted := updatePlaylistCounts looped.1 pid
    (counted.1,
      { resolveCalls := looped.2.1
        delaysMs := looped.2.2
        countsAfter := counted.2
        nextRunDelayMs := if counted.2.pendingCount > 0 then some 0 else none })

/-- The scheduler driving the self-re-enqueueing coordinator, with fuel to
bound the recursion; it stops as soon as an invocation schedules no successor
and returns the invocation logs in order. -/
def runCoordinator (api : CatalogAPI) (pid : Nat) (storefrontArg : Option String) :
    Nat → DB → DB × List InvLog
  | 0, db => (db, [])
  | fuel + 1, db =>
    let invoked := processPlaylistBatch api pid storefrontArg db
    match invoked.2.nextRunDelayMs with
    | some _ =>
      let rest := runCoordinator api pid storefrontArg fuel invoked.1
      (rest.1, invoked.2 :: rest.2)
    | none => (invoked.1, [invoked.2])

/-! ## Import Intake upsert (`upsertPlaylistWithTracks` in convex/spotifyInternal.ts) -/

/-- One track of the upsert payload. -/
structure UpsertTrackArg where
  position : Nat
  title : String
  artistNames : List String
  releaseYear : Option Nat
  imageUrl : Option String
  spotifyTrackId : Option String
  isrc : Option String
  appleMusicId : Option String
  previewUrl : Option String
deriving DecidableEq, Repr

/-- The arguments of `upsertPlaylistWithTracks`. -/
structure UpsertArgs where
  ownerUserId : String
  source : MusicSource
  sourcePlaylistId : String
  name : String
  description : Option String
  imageUrl : Option String
  tracks : List UpsertTrackArg
deriving DecidableEq, Repr

/-- JavaScript truthiness of an optional string (`undefined` and `""` falsy). -/
def truthyStr : Option String → Bool
  | some s => s ≠ ""
  | none => false

/-- JavaScript truthiness of an optional number (`undefined` and `0` falsy). -/
def truthyNat : Option Nat → Bool
  | some n => n ≠ 0
  | none => false

/-- `track.appleMusicId && track.previewUrl && track.releaseYear`, the
pre-resolved test of the upsert, under JavaScript truthiness. -/
def preResolved (t : UpsertTrackArg) : Bool :=
  truthyStr t.appleMusicId && truthyStr t.previewUrl && truthyNat t.releaseYear

/-- The seeded status of one inserted track: `ready` when the import source is
Apple Music or the track is pre-resolved, else `pending`. -/
def seededStatus (source : MusicSource) (t : UpsertTrackArg) : TrackStatus :=
  if source == MusicSource.appleMusic || preResolved t
  then TrackStatus.ready else TrackStatus.pending

/-- The `playlistTracks` row inserted for one payload track. -/
def seedTrack (source : MusicSource) (pid : Nat) (rowId : Nat)
    (t : UpsertTrackArg) : TrackRec :=
  { id := rowId
    playlistId := pid
    position := t.position
    status := seededStatus source t
    title := t.title
    artistNames := t.artistNames
    releaseYear := t.releaseYear
    imageUrl := t.imageUrl
    spotifyTrackId := t.spotifyTrackId
    isrc := t.isrc
    appleMusicId := t.appleMusicId
    previewUrl := t.previewUrl
    unmatchedReason := none }

/-- The insertion loop of the upsert followed by the Apple Music
`readyTracks` fix-up. -/
def insertUpsertTracks (args : UpsertArgs) (pid : Nat) (db : DB) : DB :=
  let inserted := args.tracks.foldl
    (fun d t =>
      { d with
        tracks := d.tracks ++ [seedTrack args.source pid d.nextId t]
        nextId := d.nextId + 1 })
    db
  if args.source == MusicSource.appleMusic then
    { inserted with playlists := inserted.playlists.map (fun p =>
        if p.id = pid then { p with readyTracks := args.tracks.length } else p) }
  else inserted

/-- `upsertPlaylistWithTracks`: find the owner's playlist for the source
playlist id (`unique()` throws — modelled as `none` — when several match);
replace its tracks wholesale and reset its metadata, or create a fresh
playlist; then insert the new tracks.  Returns the updated database and the
playlist id. -/
def upsertPlaylistWithTracks (db : DB) (now : Nat) (args : UpsertArgs) :
    Option (DB × Nat) :=
  let matching := db.playlists.filter (fun p =>
    p.ownerUserId == args.ownerUserId && p.sourcePlaylistId == args.sourcePlaylistId)
  match matching with
  | [existing] =>
    let pid := existing.id
    let deleted := { db with tracks := db.tracks.filter (fun t => !(t.playlistId == pid)) }
    let patched := { deleted with playlists := deleted.playlists.map (fun p =>
        if p.id = pid then
          { p with
            name := args.name
            description := args.description
            imageUrl := args.imageUrl
            importedAt := now
            status := if args.source == MusicSource.appleMusic
                      then PlaylistStatus.ready else PlaylistStatus.processing
            totalTracks := args.tracks.length
            readyTracks := 0
            unmatchedTracks := 0 }
        else p) }
    some (insertUpsertTracks args pid patched, pid)
  | [] =>
    let pid := db.nextId
    let created : PlaylistRec :=
      { id := pid
        ownerUserId := args.ownerUserId
        source := args.source
        sourcePlaylistId := args.sourcePlaylistId
        name := args.name
        description := args.description
        imageUrl := args.imageUrl
        importedAt := now
        status := if args.source == MusicSource.appleMusic
                  then PlaylistStatus.ready else PlaylistStatus.processing
        totalTracks := args.tracks.length
        readyTracks := 0
        unmatchedTracks := 0 }
    let inserted := { db with playlists := db.playlists ++ [created], nextId := db.nextId + 1 }
    some (insertUpsertTracks args pid inserted, pid)
  | _ => none

/-! ## Resolver theorems (claims C1, C2, C3) -/

/-- The ISRC step of the resolver produces no hit: either the input has no
ISRC, or the lookup returns `null` or throws. -/
def isrcStepMisses (api : CatalogAPI) (args : ResolveArgs) : Prop :=
  ∀ s, args.isrc = some s →
    api.searchByISRC s (args.storefront.getD "us") = Except.ok none ∨
    ∃ e, api.searchByISRC s (args.storefront.getD "us") = Except.error e

/-- Claim C1: whenever the ISRC step yields no hit and the text search returns
between 1 and 5 candidates of which none has both its normalized title and
normalized artist similar to the normalized input, the resolver returns
`Matched` built from the first-ranked candidate — never `Unmatched` for low
similarity alone. -/
theorem resolver_low_confidence_fallback (api : CatalogAPI) (args : ResolveArgs)
    (c0 : AppleMusicTrack) (rest : List AppleMusicTrack)
    (hmiss : isrcStepMisses api args)
    (hres : api.searchCatalog (args.title ++ " " ++ args.artist)
        (args.storefront.getD "us") 5 = Except.ok (c0 :: rest))
    (_hlen : (c0 :: rest).length ≤ 5)
    (hnosim : ∀ r ∈ c0 :: rest,
        (stringsSimilar (normalizeString args.title) (normalizeString r.title) &&
         stringsSimilar (normalizeString args.artist) (normalizeString r.artistName)) = false) :
    resolveTrackToAppleMusic api args = ResolveResult.matched c0 := by
  have hsearch : resolveViaSearch api args = ResolveResult.matched c0 := by
    have hfind : (c0 :: rest).find? (fun result =>
        stringsSimilar (normalizeString args.title) (normalizeString result.title) &&
        stringsSimilar (normalizeString args.artist) (normalizeString result.artistName)) = none :=
      List.find?_eq_none.mpr (fun r hr => by simp [hnosim r hr])
    simp only [resolveViaSearch, hres, hfind]
  cases hisrc : args.isrc with
  | none => simpa only [resolveTrackToAppleMusic, hisrc] using hsearch
  | some s =>
    by_cases hse : s = ""
    · simpa only [resolveTrackToAppleMusic, hisrc, if_pos hse] using hsearch
    · rcases hmiss s hisrc with h | ⟨e, h⟩ <;>
        simpa only [resolveTrackToAppleMusic, hisrc, if_neg hse, h] using hsearch

/-- Witness for C1: a concrete resolver input with two dissimilar candidates
resolves to the first-ranked one. -/
theorem resolver_low_confidence_fallback_witness :
    resolveTrackToAppleMusic
      ⟨fun _ _ => Except.ok none,
       fun _ _ _ => Except.ok
         [⟨"am1", "zzz", "www", "alb", 2001, none, none, none, none⟩,
          ⟨"am2", "qqq", "ppp", "alb", 2002, none, none, none, none⟩]⟩
      ⟨1, some "USRC17607839", "hello", "world", none⟩ =
    ResolveResult.matched ⟨"am1", "zzz", "www", "alb", 2001, none, none, none, none⟩ :=
  resolver_low_confidence_fallback _ _ _ _
    (fun s hs => Or.inl rfl) rfl (by decide) (by decide)

/-- Claim C2 (amended): for an input carrying a *non-empty* ISRC, a successful
exact ISRC lookup returns `Matched` with that hit immediately, and the outcome
does not depend on the text-search capability at all (no search call, no
similarity scan, no fallback can influence it); an empty-string ISRC is falsy
under the source's `if (args.isrc)` guard, so it skips the lookup entirely. -/
theorem resolver_isrc_short_circuit (api : CatalogAPI) (args : ResolveArgs)
    (s : String) (c : AppleMusicTrack)
    (hs : args.isrc = some s)
    (hne : s ≠ "")
    (hhit : api.searchByISRC s (args.storefront.getD "us") = Except.ok (some c)) :
    resolveTrackToAppleMusic api args = ResolveResult.matched c ∧
    ∀ api' : CatalogAPI, api'.searchByISRC = api.searchByISRC →
      resolveTrackToAppleMusic api' args = ResolveResult.matched c := by
  refine ⟨by simp only [resolveTrackToAppleMusic, hs, if_neg hne, hhit],
    fun api' hapi => ?_⟩
  simp only [resolveTrackToAppleMusic, hs, if_neg hne, hapi, hhit]

/-- Claim C2, read literally: every carried ISRC whose lookup hits is returned
as the match, with the text-search capability never consulted. -/
def isrcAlwaysShortCircuits (api : CatalogAPI) (args : ResolveArgs) : Prop :=
  ∀ s c, args.isrc = some s →
    api.searchByISRC s (args.storefront.getD "us") = Except.ok (some c) →
    resolveTrackToAppleMusic api args = ResolveResult.matched c ∧
    ∀ api' : CatalogAPI, api'.searchByISRC = api.searchByISRC →
      resolveTrackToAppleMusic api' args = ResolveResult.matched c

/-- The catalog entry the ISRC lookup of the C2 counterexample would return. -/
def hitC2 : AppleMusicTrack :=
  ⟨"am-hit", "t", "a", "Album", 1990, none, none, none, none⟩

/-- The (dissimilar) sole text-search result of the C2 counterexample. -/
def otherC2 : AppleMusicTrack :=
  ⟨"am-search", "zz", "ww", "Album", 1991, none, none, none, none⟩

/-- A capability whose ISRC lookup always hits and whose search returns a
different track. -/
def apiC2 : CatalogAPI :=
  ⟨fun _ _ => Except.ok (some hitC2), fun _ _ _ => Except.ok [otherC2]⟩

/-- Counterexample for C2 as stated: on an input carrying the empty-string
ISRC the source's falsy guard skips the lookup, so the resolver returns the
text-search result instead of the lookup hit. -/
theorem resolver_isrc_short_circuit_counterexample :
    ¬ isrcAlwaysShortCircuits apiC2 ⟨6, some "", "t", "a", none⟩ := by
  intro h
  have hclaim := (h "" hitC2 rfl rfl).1
  exact absurd hclaim (by decide)

/-- Witness for C2's amended theorem: a concrete non-empty ISRC hit is
returned unchanged even though the text-search capability always throws. -/
theorem resolver_isrc_short_circuit_witness :
    resolveTrackToAppleMusic
      ⟨fun _ _ => Except.ok (some ⟨"am9", "Song", "Artist", "Album", 1999, none, none, none, some "QZABC1234567"⟩),
       fun _ _ _ => Except.error "search must not be called"⟩
      ⟨2, some "QZABC1234567", "Song", "Artist", some "de"⟩ =
    ResolveResult.matched ⟨"am9", "Song", "Artist", "Album", 1999, none, none, none, some "QZABC1234567"⟩ :=
  (resolver_isrc_short_circuit _ _ _ _ rfl (by decide) rfl).1

/-- Claim C3: the resolver never throws; a thrown ISRC lookup degrades to the
text-search path (same outcome as having no ISRC), a thrown search becomes
`Unmatched "Search failed"`, an empty result list becomes
`Unmatched "No results found"`, and no other `Unmatched` outcome exists. -/
theorem resolver_error_handling (api : CatalogAPI) (args : ResolveArgs) :
    ((∃ s e, args.isrc = some s ∧
        api.searchByISRC s (args.storefront.getD "us") = Except.error e) →
      resolveTrackToAppleMusic api args =
        resolveTrackToAppleMusic api { args with isrc := none }) ∧
    (isrcStepMisses api args →
      (∀ e, api.searchCatalog (args.title ++ " " ++ args.artist)
          (args.storefront.getD "us") 5 = Except.error e →
        resolveTrackToAppleMusic api args = ResolveResult.unmatched "Search failed") ∧
      (api.searchCatalog (args.title ++ " " ++ args.artist)
          (args.storefront.getD "us") 5 = Except.ok [] →
        resolveTrackToAppleMusic api args = ResolveResult.unmatched "No results found")) ∧
    (∀ reason, resolveTrackToAppleMusic api args = ResolveResult.unmatched reason →
      reason = "Search failed" ∨ reason = "No results found") := by
  have hsame : resolveViaSearch api { args with isrc := none } = resolveViaSearch api args := rfl
  refine ⟨?_, ?_, ?_⟩
  · rintro ⟨s, e, hs, herr⟩
    by_cases hse : s = ""
    · simp only [resolveTrackToAppleMusic, hs, if_pos hse, hsame]
    · simp only [resolveTrackToAppleMusic, hs, if_neg hse, herr, hsame]
  · intro hmiss
    have hstep : resolveTrackToAppleMusic api args = resolveViaSearch api args := by
      cases hisrc : args.isrc with
      | none => simp only [resolveTrackToAppleMusic, hisrc]
      | some s =>
        by_cases hse : s = ""
        · simp only [resolveTrackToAppleMusic, hisrc, if_pos hse]
        · rcases hmiss s hisrc with h | ⟨e, h⟩ <;>
            simp only [resolveTrackToAppleMusic, hisrc, if_neg hse, h]
    refine ⟨fun e herr => ?_, fun hnil => ?_⟩
    · rw [hstep]; simp only [resolveViaSearch, herr]
    · rw [hstep]; simp only [resolveViaSearch, hnil]
  · intro reason hrun
    have hvia : ∀ r, resolveViaSearch api args = ResolveResult.unmatched r →
        r = "Search failed" ∨ r = "No results found" := by
      intro r hr
      simp only [resolveViaSearch] at hr
      split at hr
      · exact Or.inl (ResolveResult.unmatched.inj hr).symm
      · exact Or.inr (ResolveResult.unmatched.inj hr).symm
      · split at hr
        · exact absurd hr (by simp)
        · exact absurd hr (by simp)
    simp only [resolveTrackToAppleMusic] at hrun
    split at hrun
    · split at hrun
      · exact hvia reason hrun
      · split at hrun
        · exact absurd hrun (by simp)
        · exact hvia reason hrun
        · exact hvia reason hrun
    · exact hvia reason hrun

/-- Witness for C3: concrete inputs exercising the thrown-lookup fall-through,
the thrown-search outcome, and the empty-search outcome. -/
theorem resolver_error_handling_witness :
    resolveTrackToAppleMusic
      ⟨fun _ _ => Except.error "isrc boom", fun _ _ _ => Except.ok []⟩
      ⟨3, some "USXYZ0000001", "t", "a", none⟩ =
      resolveTrackToAppleMusic
        ⟨fun _ _ => Except.error "isrc boom", fun _ _ _ => Except.ok []⟩
        ⟨3, none, "t", "a", none⟩ ∧
    resolveTrackToAppleMusic
      ⟨fun _ _ => Except.ok none, fun _ _ _ => Except.error "search boom"⟩
      ⟨4, none, "t", "a", none⟩ = ResolveResult.unmatched "Search failed" ∧
    resolveTrackToAppleMusic
      ⟨fun _ _ => Except.ok none, fun _ _ _ => Except.ok []⟩
      ⟨5, none, "t", "a", none⟩ = ResolveResult.unmatched "No results found" :=
  ⟨(resolver_error_handling
      ⟨fun _ _ => Except.error "isrc boom", fun _ _ _ => Except.ok []⟩
      ⟨3, some "USXYZ0000001", "t", "a", none⟩).1
      ⟨"USXYZ0000001", "isrc boom", rfl, rfl⟩,
   ((resolver_error_handling
      ⟨fun _ _ => Except.ok none, fun _ _ _ => Except.error "search boom"⟩
      ⟨4, none, "t", "a", none⟩).2.1
      (fun s hs => by cases hs)).1 "search boom" rfl,
   ((resolver_error_handling
      ⟨fun _ _ => Except.ok none, fun _ _ _ => Except.ok []⟩
      ⟨5, none, "t", "a", none⟩).2.1
      (fun s hs => by cases hs)).2 rfl⟩

/-! ## Coordinator per-track call shape (claim C10) -/

/-- Claim C10: the coordinator passes only the first artist name to the
resolver (`'Unknown Artist'` for an empty list); artist names past the first
influence neither the call the batch loop issues nor the resolver's outcome. -/
theorem coordinator_uses_first_artist_only (storefront : String) (t : PendingTrack) :
    (t.artistNames = [] → (trackResolveArgs storefront t).artist = "Unknown Artist") ∧
    (∀ a rest, t.artistNames = a :: rest → (trackResolveArgs storefront t).artist = a) ∧
    (∀ (api : CatalogAPI) (a : String) (rest rest' : List String),
      t.artistNames = a :: rest →
      resolveTrackToAppleMusic api
          (trackResolveArgs storefront { t with artistNames := a :: rest' }) =
        resolveTrackToAppleMusic api (trackResolveArgs storefront t)) ∧
    (∀ (api : CatalogAPI) (db : DB) (ts : List PendingTrack),
      (runBatchLoop api storefront ts db).2.1 = ts.map (trackResolveArgs storefront)) := by
  refine ⟨fun h => by simp [trackResolveArgs, h], fun a rest h => by simp [trackResolveArgs, h],
    fun api a rest rest' h => ?_, fun api db ts => ?_⟩
  · have : trackResolveArgs storefront { t with artistNames := a :: rest' } =
        trackResolveArgs storefront t := by
      simp [trackResolveArgs, h]
    rw [this]
  · induction ts generalizing db with
    | nil => rfl
    | cons u us ih => simp [runBatchLoop, ih]

/-- Witness for C10: with a concrete two-artist track, dropping the second
artist does not change the resolver call, and the empty list yields the
literal fallback artist. -/
theorem coordinator_uses_first_artist_only_witness :
    resolveTrackToAppleMusic
      ⟨fun _ _ => Except.ok none, fun q _ _ => Except.ok [⟨q, q, q, q, 1, none, none, none, none⟩]⟩
      (trackResolveArgs "us" ⟨7, "Song", ["Main Artist"], none⟩) =
    resolveTrackToAppleMusic
      ⟨fun _ _ => Except.ok none, fun q _ _ => Except.ok [⟨q, q, q, q, 1, none, none, none, none⟩]⟩
      (trackResolveArgs "us" ⟨7, "Song", ["Main Artist", "Feature"], none⟩) ∧
    (trackResolveArgs "us" ⟨8, "Song", [], none⟩).artist = "Unknown Artist" :=
  ⟨(coordinator_uses_first_artist_only "us" ⟨7, "Song", ["Main Artist", "Feature"], none⟩).2.2.1
      _ "Main Artist" ["Feature"] [] rfl,
   (coordinator_uses_first_artist_only "us" ⟨8, "Song", [], none⟩).1 rfl⟩

/-! ## Pending-batch query theorems (claim C6) -/

instance : IsTotal TrackRec (fun a b => a.position ≤ b.position) :=
  ⟨fun a b => Nat.le_total a.position b.position⟩

instance : IsTrans TrackRec (fun a b => a.position ≤ b.position) :=
  ⟨fun _ _ _ h h' => Nat.le_trans h h'⟩

/-- Claim C6: the batch fetch returns at most `BATCH_SIZE = 10` rows, every
returned row belongs to the playlist with status `pending`, the rows are in
ascending `position` order, and `getPendingTracks` is their
`{_id, title, artistNames, isrc}` projection. -/
theorem getPendingTracks_spec (db : DB) (pid : Nat) :
    (getPendingTracksQuery db pid BATCH_SIZE).length ≤ BATCH_SIZE ∧
    (∀ t ∈ getPendingTracksQuery db pid BATCH_SIZE,
      t.playlistId = pid ∧ t.status = TrackStatus.pending) ∧
    (getPendingTracksQuery db pid BATCH_SIZE).Pairwise (fun a b => a.position ≤ b.position) ∧
    getPendingTracks db pid BATCH_SIZE = (getPendingTracksQuery db pid BATCH_SIZE).map
      (fun t => { id := t.id, title := t.title, artistNames := t.artistNames, isrc := t.isrc }) ∧
    BATCH_SIZE = 10 := by
  refine ⟨?_, ?_, ?_, rfl, rfl⟩
  · simp only [getPendingTracksQuery, List.length_take]
    exact Nat.min_le_left _ _
  · intro t ht
    have hmem : t ∈ indexScanPending db pid :=
      List.mem_of_mem_take ht
    have hmem' : t ∈ pendingOf db.tracks pid :=
      (List.perm_insertionSort _ _).mem_iff.mp hmem
    have := List.of_mem_filter hmem'
    simp only [Bool.and_eq_true, beq_iff_eq] at this
    exact this
  · have hsorted : (indexScanPending db pid).Pairwise (fun a b => a.position ≤ b.position) :=
      List.sorted_insertionSort _ _
    exact List.Pairwise.sublist (List.take_sublist _ _) hsorted

/-- A small concrete database with mixed-status tracks of two playlists. -/
def dbC6 : DB :=
  { playlists := [⟨1, "owner", MusicSource.spotify, "sp1", "P", none, none, 0,
      PlaylistStatus.processing, 3, 1, 0⟩]
    tracks :=
      [⟨11, 1, 2, TrackStatus.pending, "c", ["x"], none, none, none, none, none, none, none⟩,
       ⟨12, 1, 0, TrackStatus.ready, "a", ["x"], some 2000, none, none, none, some "am", some "p", none⟩,
       ⟨13, 1, 1, TrackStatus.pending, "b", ["x"], none, none, none, none, none, none, none⟩,
       ⟨14, 2, 0, TrackStatus.pending, "other", ["y"], none, none, none, none, none, none, none⟩]
    nextId := 20 }

/-- Witness for C6: the batch query on a concrete database respects the
bound, the filter, and the ordering. -/
theorem getPendingTracks_spec_witness :
    (getPendingTracksQuery dbC6 1 BATCH_SIZE).length ≤ BATCH_SIZE ∧
    ∀ t ∈ getPendingTracksQuery dbC6 1 BATCH_SIZE,
      t.playlistId = 1 ∧ t.status = TrackStatus.pending :=
  ⟨(getPendingTracks_spec dbC6 1).1, (getPendingTracks_spec dbC6 1).2.1⟩

/-! ## Normalizer theorems (claim C8) -/

/-- ASCII punctuation in the C `ispunct` sense: the printable ASCII characters
that are neither alphanumeric nor space (this set contains the underscore). -/
def isAsciiPunct (c : Char) : Bool :=
  (33 ≤ c.toNat && c.toNat ≤ 47) || (58 ≤ c.toNat && c.toNat ≤ 64) ||
  (91 ≤ c.toNat && c.toNat ≤ 96) || (123 ≤ c.toNat && c.toNat ≤ 126)

/-- The normalization the specification describes, read literally: lowercase,
strip all punctuation (and nothing else), collapse whitespace runs, trim. -/
def normalizeSpecPunct (s : String) : String :=
  ⟨trimChars (collapseWs ((s.data.map jsToLower).filter (fun c => !isAsciiPunct c)))⟩

theorem toNat_ofNat_shifted {n : Nat} (h1 : 97 ≤ n) (h2 : n ≤ 122) :
    (Char.ofNat n).toNat = n := by
  interval_cases n <;> rfl

theorem jsToLower_idem (c : Char) : jsToLower (jsToLower c) = jsToLower c := by
  by_cases h : 65 ≤ c.toNat ∧ c.toNat ≤ 90
  · have hlc : jsToLower c = Char.ofNat (c.toNat + 32) := by
      rw [jsToLower, if_pos h]
    have ht : (Char.ofNat (c.toNat + 32)).toNat = c.toNat + 32 :=
      toNat_ofNat_shifted (by omega) (by omega)
    rw [hlc, jsToLower, if_neg (by rw [ht]; omega)]
  · have hlc : jsToLower c = c := by rw [jsToLower, if_neg h]
    rw [hlc, hlc]

/-- Output head of the in-run scanner is never whitespace. -/
def headNotSpace : List Char → Bool
  | [] => true
  | c :: _ => !isJsSpace c

/-- Whitespace normal form: every whitespace character is a single `' '`
not followed by further whitespace. -/
def wsNormal : List Char → Bool
  | [] => true
  | c :: cs =>
    if isJsSpace c then (c == ' ') && headNotSpace cs && wsNormal cs
    else wsNormal cs

theorem wsNormal_tail {c : Char} {cs : List Char} (h : wsNormal (c :: cs) = true) :
    wsNormal cs = true := by
  rw [wsNormal] at h
  split at h
  · exact (Bool.and_eq_true_iff.mp h).2
  · exact h

theorem headNotSpace_collapseAux (l : List Char) :
    headNotSpace (collapseAux true l) = true := by
  induction l with
  | nil => rfl
  | cons c cs ih =>
    rw [collapseAux]
    by_cases h : isJsSpace c = true
    · simp only [h, if_true]
      exact ih
    · simp only [Bool.not_eq_true] at h
      simp [h, headNotSpace]

theorem wsNormal_collapseAux (l : List Char) (b : Bool) :
    wsNormal (collapseAux b l) = true := by
  induction l generalizing b with
  | nil => rfl
  | cons c cs ih =>
    rw [collapseAux]
    by_cases h : isJsSpace c = true
    · cases b with
      | true => simp only [h, if_true]; exact ih true
      | false =>
        simp only [h, if_true, Bool.false_eq_true, if_false]
        rw [wsNormal]
        simp only [show isJsSpace ' ' = true from rfl, if_true]
        refine Bool.and_eq_true_iff.mpr ⟨Bool.and_eq_true_iff.mpr ⟨rfl, ?_⟩, ih true⟩
        exact headNotSpace_collapseAux cs
    · simp only [Bool.not_eq_true] at h
      simp only [h, Bool.false_eq_true, if_false]
      rw [wsNormal]
      simp only [h, Bool.false_eq_true, if_false]
      exact ih false

theorem collapseAux_true_of_headNotSpace {l : List Char} (h : headNotSpace l = true) :
    collapseAux true l = collapseAux false l := by
  cases l with
  | nil => rfl
  | cons c cs =>
    rw [headNotSpace, Bool.not_eq_true'] at h
    rw [collapseAux, collapseAux]
    simp [h]

theorem collapseAux_of_wsNormal {l : List Char} (h : wsNormal l = true) :
    collapseAux false l = l := by
  induction l with
  | nil => rfl
  | cons c cs ih =>
    rw [wsNormal] at h
    by_cases hc : isJsSpace c = true
    · rw [if_pos hc] at h
      simp only [Bool.and_eq_true_iff] at h
      obtain ⟨⟨hsp, hhead⟩, htail⟩ := h
      have hceq : c = ' ' := by simpa using hsp
      rw [collapseAux, if_pos hc]
      rw [collapseAux_true_of_headNotSpace hhead, ih htail, hceq]
      simp
    · rw [if_neg hc] at h
      rw [Bool.not_eq_true] at hc
      rw [collapseAux]
      simp only [hc, Bool.false_eq_true, if_false]
      rw [ih h]

theorem wsNormal_dropWhile {l : List Char} (h : wsNormal l = true) :
    wsNormal (l.dropWhile isJsSpace) = true := by
  induction l with
  | nil => exact h
  | cons c cs ih =>
    rw [List.dropWhile_cons]
    split
    · exact ih (wsNormal_tail h)
    · exact h

theorem headNotSpace_dropWhile (l : List Char) :
    headNotSpace (l.dropWhile isJsSpace) = true := by
  induction l with
  | nil => rfl
  | cons c cs ih =>
    by_cases h : isJsSpace c = true
    · rw [List.dropWhile_cons, if_pos h]
      exact ih
    · rw [List.dropWhile_cons, if_neg h, headNotSpace]
      rw [Bool.not_eq_true] at h
      simp [h]

theorem dropTrailingWs_head (l : List Char) :
    dropTrailingWs l = [] ∨ (dropTrailingWs l).head? = l.head? := by
  cases l with
  | nil => exact Or.inl rfl
  | cons c cs =>
    rw [dropTrailingWs]
    cases h : dropTrailingWs cs with
    | nil =>
      by_cases hc : isJsSpace c = true
      · exact Or.inl (by simp [hc])
      · exact Or.inr (by simp [hc])
    | cons d ds => exact Or.inr rfl

theorem wsNormal_dropTrailingWs {l : List Char} (h : wsNormal l = true) :
    wsNormal (dropTrailingWs l) = true := by
  induction l with
  | nil => exact h
  | cons c cs ih =>
    rw [dropTrailingWs]
    cases hr : dropTrailingWs cs with
    | nil =>
      by_cases hc : isJsSpace c = true
      · rw [if_pos hc]; rfl
      · rw [if_neg hc]
        rw [wsNormal]
        simp [hc, wsNormal]
    | cons d ds =>
      rw [wsNormal] at h ⊢
      by_cases hc : isJsSpace c = true
      · rw [if_pos hc] at h ⊢
        simp only [Bool.and_eq_true_iff] at h
        obtain ⟨⟨hsp, hhead⟩, htail⟩ := h
        refine Bool.and_eq_true_iff.mpr ⟨Bool.and_eq_true_iff.mpr ⟨hsp, ?_⟩, ?_⟩
        · -- the head of `dropTrailingWs cs` is the head of `cs`
          rcases dropTrailingWs_head cs with hnil | hh
          · rw [hnil] at hr; cases hr
          · rw [hr] at hh
            cases cs with
            | nil => cases hh
            | cons e es =>
              simp only [List.head?] at hh
              rw [headNotSpace]
              have hde : d = e := by simpa using hh
              rw [hde]
              rw [headNotSpace] at hhead
              exact hhead
        · have := ih htail
          rw [hr] at this
          exact this
      · rw [if_neg hc] at h ⊢
        have := ih h
        rw [hr] at this
        exact this

theorem dropTrailingWs_idem (l : List Char) :
    dropTrailingWs (dropTrailingWs l) = dropTrailingWs l := by
  induction l with
  | nil => rfl
  | cons c cs ih =>
    rw [dropTrailingWs]
    cases hr : dropTrailingWs cs with
    | nil =>
      by_cases hc : isJsSpace c = true
      · simp [hc, dropTrailingWs]
      · simp only [hc, Bool.false_eq_true, if_false]
        rw [dropTrailingWs, dropTrailingWs]
        simp [hc]
    | cons d ds =>
      rw [dropTrailingWs]
      rw [hr] at ih
      rw [ih]

theorem dropWhile_of_headNotSpace {l : List Char} (h : headNotSpace l = true) :
    l.dropWhile isJsSpace = l := by
  cases l with
  | nil => rfl
  | cons c cs =>
    rw [headNotSpace, Bool.not_eq_true'] at h
    rw [List.dropWhile_cons]
    simp [h]

theorem mem_collapseAux {c : Char} {l : List Char} {b : Bool}
    (h : c ∈ collapseAux b l) : c = ' ' ∨ (c ∈ l ∧ isJsSpace c = false) := by
  induction l generalizing b with
  | nil => cases h
  | cons d ds ih =>
    rw [collapseAux] at h
    by_cases hd : isJsSpace d = true
    · rw [if_pos hd] at h
      cases b with
      | true =>
        rcases ih h with h' | ⟨hm, hs⟩
        · exact Or.inl h'
        · exact Or.inr ⟨List.mem_cons_of_mem d hm, hs⟩
      | false =>
        rcases List.mem_cons.mp h with rfl | h'
        · exact Or.inl rfl
        · rcases ih h' with h'' | ⟨hm, hs⟩
          · exact Or.inl h''
          · exact Or.inr ⟨List.mem_cons_of_mem d hm, hs⟩
    · rw [Bool.not_eq_true] at hd
      rw [hd] at h
      simp only [Bool.false_eq_true, if_false] at h
      rcases List.mem_cons.mp h with rfl | h'
      · exact Or.inr ⟨List.mem_cons_self c ds, hd⟩
      · rcases ih h' with h'' | ⟨hm, hs⟩
        · exact Or.inl h''
        · exact Or.inr ⟨List.mem_cons_of_mem d hm, hs⟩

theorem mem_dropTrailingWs {c : Char} {l : List Char}
    (h : c ∈ dropTrailingWs l) : c ∈ l := by
  induction l with
  | nil => cases h
  | cons d ds ih =>
    rw [dropTrailingWs] at h
    cases hr : dropTrailingWs ds with
    | nil =>
      rw [hr] at h
      by_cases hd : isJsSpace d = true
      · rw [if_pos hd] at h; cases h
      · rw [if_neg hd] at h
        rcases List.mem_cons.mp h with rfl | h'
        · exact List.mem_cons_self c ds
        · cases h'
    | cons e es =>
      rw [hr] at h
      rcases List.mem_cons.mp h with rfl | h'
      · exact List.mem_cons_self c ds
      · exact List.mem_cons_of_mem d (ih (hr ▸ h'))

theorem normalizeChars_fix (x : List Char)
    (hxchars : ∀ c ∈ x, (isWordChar c || isJsSpace c) = true ∧ jsToLower c = c) :
    trimChars (collapseWs (((trimChars (collapseWs x)).map jsToLower).filter
        (fun c => isWordChar c || isJsSpace c))) = trimChars (collapseWs x) ∧
    ∀ c ∈ trimChars (collapseWs x), isWordChar c = true ∨ c = ' ' := by
  have htsub : ∀ c ∈ trimChars (collapseWs x), c = ' ' ∨ (c ∈ x ∧ isJsSpace c = false) := by
    intro c hc
    have hcz : c ∈ collapseWs x := List.dropWhile_subset _ (mem_dropTrailingWs hc)
    exact mem_collapseAux hcz
  have hchars : ∀ c ∈ trimChars (collapseWs x), isWordChar c = true ∨ c = ' ' := by
    intro c hc
    rcases htsub c hc with rfl | ⟨hmem, hns⟩
    · exact Or.inr rfl
    · rcases Bool.or_eq_true_iff.mp (hxchars c hmem).1 with h | h
      · exact Or.inl h
      · rw [h] at hns; cases hns
  refine ⟨?_, hchars⟩
  have hmap : (trimChars (collapseWs x)).map jsToLower = trimChars (collapseWs x) := by
    have heq : (trimChars (collapseWs x)).map jsToLower = (trimChars (collapseWs x)).map id :=
      List.map_congr_left (fun c hc => by
        rcases htsub c hc with rfl | ⟨hmem, _⟩
        · rfl
        · exact (hxchars c hmem).2)
    rw [heq, List.map_id]
  have hfilter : (trimChars (collapseWs x)).filter (fun c => isWordChar c || isJsSpace c) =
      trimChars (collapseWs x) :=
    List.filter_eq_self.mpr (fun c hc => by
      rcases hchars c hc with h | rfl
      · rw [h]; rfl
      · rfl)
  have hwst : wsNormal (trimChars (collapseWs x)) = true :=
    wsNormal_dropTrailingWs (wsNormal_dropWhile (wsNormal_collapseAux x false))
  have hcollapse : collapseWs (trimChars (collapseWs x)) = trimChars (collapseWs x) :=
    collapseAux_of_wsNormal hwst
  have hheadt : headNotSpace (trimChars (collapseWs x)) = true := by
    have hnd := headNotSpace_dropWhile (collapseWs x)
    show headNotSpace (dropTrailingWs ((collapseWs x).dropWhile isJsSpace)) = true
    rcases dropTrailingWs_head ((collapseWs x).dropWhile isJsSpace) with hnil | hhead
    · rw [hnil]; rfl
    · cases hdw : (collapseWs x).dropWhile isJsSpace with
      | nil => rfl
      | cons a as =>
        rw [hdw] at hhead hnd
        cases hdt : dropTrailingWs (a :: as) with
        | nil => rfl
        | cons b bs =>
          rw [hdt] at hhead
          simp only [List.head?] at hhead
          rw [headNotSpace]
          have hba : b = a := by simpa using hhead
          rw [hba]
          rw [headNotSpace] at hnd
          exact hnd
  have htrim : trimChars (trimChars (collapseWs x)) = trimChars (collapseWs x) := by
    show dropTrailingWs ((trimChars (collapseWs x)).dropWhile isJsSpace) =
      trimChars (collapseWs x)
    rw [dropWhile_of_headNotSpace hheadt]
    show dropTrailingWs (dropTrailingWs ((collapseWs x).dropWhile isJsSpace)) =
      trimChars (collapseWs x)
    rw [dropTrailingWs_idem]
    rfl
  rw [hmap, hfilter, hcollapse, htrim]

/-- Claim C8 (amended): `normalizeString` is idempotent, and every character
of its output is a word character (`[A-Za-z0-9_]`) or a single space — the
source deletes every character outside `[\w\s]`, not only punctuation. -/
theorem normalizeString_idempotent (s : String) :
    normalizeString (normalizeString s) = normalizeString s ∧
    ∀ c ∈ (normalizeString s).data, isWordChar c = true ∨ c = ' ' := by
  have hx : ∀ c ∈ (s.data.map jsToLower).filter (fun c => isWordChar c || isJsSpace c),
      (isWordChar c || isJsSpace c) = true ∧ jsToLower c = c := by
    intro c hc
    refine ⟨(List.mem_filter.mp hc).2, ?_⟩
    rcases List.mem_map.mp (List.mem_filter.mp hc).1 with ⟨c0, _, rfl⟩
    exact jsToLower_idem c0
  obtain ⟨h1, h2⟩ := normalizeChars_fix _ hx
  exact ⟨congrArg String.mk h1, fun c hc => h2 c hc⟩

/-- Counterexample for C8 as stated: `normalizeString "café"` deletes the
letter `é`, which is not punctuation, so the output differs from the
spec-literal "strip only punctuation" normalization. -/
theorem normalizeString_claim_counterexample :
    ¬ (normalizeString "café" = normalizeSpecPunct "café") := by decide

/-- Witness for C8: idempotence and the character shape at a concrete string. -/
theorem normalizeString_idempotent_witness :
    normalizeString (normalizeString "  Mr.  Brightside -- (Live)  ") =
      normalizeString "  Mr.  Brightside -- (Live)  " ∧
    (isWordChar 'm' = true ∨ 'm' = ' ') :=
  ⟨(normalizeString_idempotent "  Mr.  Brightside -- (Live)  ").1,
   (normalizeString_idempotent "  Mr.  Brightside -- (Live)  ").2 'm' (by decide)⟩

/-! ## Status Aggregator theorems (claim C5) -/

theorem find?_id_map_patch (l : List PlaylistRec) (pid : Nat)
    (f : PlaylistRec → PlaylistRec) (hf : ∀ p, (f p).id = p.id) :
    (l.map (fun p => if p.id = pid then f p else p)).find? (fun p => p.id == pid) =
      (l.find? (fun p => p.id == pid)).map (fun p => if p.id = pid then f p else p) := by
  induction l with
  | nil => rfl
  | cons p l ih =>
    by_cases hp : p.id = pid
    · rw [List.map_cons, if_pos hp]
      rw [List.find?_cons_of_pos _ (by simp [hf, hp]),
          List.find?_cons_of_pos _ (by simp [hp])]
      simp [hp]
    · rw [List.map_cons, if_neg hp]
      rw [List.find?_cons_of_neg _ (by simp [hp]),
          List.find?_cons_of_neg _ (by simp [hp])]
      exact ih

theorem trackStatus_partition (l : List TrackRec) :
    (l.filter (fun t => t.status == TrackStatus.ready)).length +
    (l.filter (fun t => t.status == TrackStatus.unmatched)).length +
    (l.filter (fun t => t.status == TrackStatus.pending)).length = l.length := by
  induction l with
  | nil => rfl
  | cons t l ih => cases h : t.status <;> simp [List.filter_cons, h] <;> omega

/-- Claim C5 (amended): the Status Aggregator sets `readyTracks` and
`unmatchedTracks` to the exact per-status counts of the playlist's tracks and
sets the status to `ready` iff the pending count is zero (a prior `failed`
mark is not consulted), else `processing`; whenever the pending count is zero
and `totalTracks` equals the playlist's actual track count,
`readyTracks + unmatchedTracks = totalTracks`. -/
theorem updatePlaylistCounts_spec (db : DB) (pid : Nat) (p : PlaylistRec)
    (hp : playlistById db pid = some p) :
    playlistById (updatePlaylistCounts db pid).1 pid = some
      { p with
        status := if (updatePlaylistCounts db pid).2.pendingCount = 0
                  then PlaylistStatus.ready else PlaylistStatus.processing
        readyTracks := (updatePlaylistCounts db pid).2.readyCount
        unmatchedTracks := (updatePlaylistCounts db pid).2.unmatchedCount } ∧
    (updatePlaylistCounts db pid).2.pendingCount =
      ((db.tracks.filter (fun t => t.playlistId == pid)).filter
        (fun t => t.status == TrackStatus.pending)).length ∧
    (updatePlaylistCounts db pid).2.readyCount =
      ((db.tracks.filter (fun t => t.playlistId == pid)).filter
        (fun t => t.status == TrackStatus.ready)).length ∧
    (updatePlaylistCounts db pid).2.unmatchedCount =
      ((db.tracks.filter (fun t => t.playlistId == pid)).filter
        (fun t => t.status == TrackStatus.unmatched)).length ∧
    ((updatePlaylistCounts db pid).2.pendingCount = 0 →
      p.totalTracks = (db.tracks.filter (fun t => t.playlistId == pid)).length →
      (updatePlaylistCounts db pid).2.readyCount +
        (updatePlaylistCounts db pid).2.unmatchedCount = p.totalTracks) := by
  have hpend : (updatePlaylistCounts db pid).2.pendingCount =
      ((db.tracks.filter (fun t => t.playlistId == pid)).filter
        (fun t => t.status == TrackStatus.pending)).length := rfl
  have hready : (updatePlaylistCounts db pid).2.readyCount =
      ((db.tracks.filter (fun t => t.playlistId == pid)).filter
        (fun t => t.status == TrackStatus.ready)).length := rfl
  have hunm : (updatePlaylistCounts db pid).2.unmatchedCount =
      ((db.tracks.filter (fun t => t.playlistId == pid)).filter
        (fun t => t.status == TrackStatus.unmatched)).length := rfl
  refine ⟨?_, hpend, hready, hunm, ?_⟩
  · have hpid : p.id = pid := by
      have := List.find?_some hp
      simpa using this
    have hfst : (updatePlaylistCounts db pid).1 =
        { db with playlists := db.playlists.map (fun q =>
            if q.id = pid then
              { q with
                status := if (updatePlaylistCounts db pid).2.pendingCount = 0
                          then PlaylistStatus.ready else PlaylistStatus.processing
                readyTracks := (updatePlaylistCounts db pid).2.readyCount
                unmatchedTracks := (updatePlaylistCounts db pid).2.unmatchedCount }
            else q) } := rfl
    rw [playlistById, hfst]
    dsimp only
    rw [find?_id_map_patch db.playlists pid
      (fun q =>
        { q with
          status := if (updatePlaylistCounts db pid).2.pendingCount = 0
                    then PlaylistStatus.ready else PlaylistStatus.processing
          readyTracks := (updatePlaylistCounts db pid).2.readyCount
          unmatchedTracks := (updatePlaylistCounts db pid).2.unmatchedCount })
      (fun q => rfl)]
    rw [playlistById] at hp
    rw [hp]
    simp [hpid]
  · intro hzero htotal
    rw [hpend] at hzero
    rw [htotal, hready, hunm]
    have hpart := trackStatus_partition (db.tracks.filter (fun t => t.playlistId == pid))
    omega

/-- The status rule claim C5 states, read literally: after the aggregator
runs, the playlist is `ready` iff the pending count is zero and the playlist
had not been marked `failed`. -/
def aggregatorClaimStatus (db : DB) (pid : Nat) : Prop :=
  ∀ p p', playlistById db pid = some p →
    playlistById (updatePlaylistCounts db pid).1 pid = some p' →
    (p'.status = PlaylistStatus.ready ↔
      ((updatePlaylistCounts db pid).2.pendingCount = 0 ∧
        p.status ≠ PlaylistStatus.failed))

/-- An intake-failed playlist with no tracks. -/
def dbC5 : DB :=
  { playlists := [⟨1, "owner", MusicSource.spotify, "sp", "P", none, none, 0,
      PlaylistStatus.failed, 0, 0, 0⟩]
    tracks := []
    nextId := 2 }

/-- Counterexample for C5 as stated: on a `failed` playlist with zero pending
tracks the aggregator sets the status to `ready`, although the claim requires
`ready` only when the playlist was not marked failed. -/
theorem updatePlaylistCounts_claim_counterexample : ¬ aggregatorClaimStatus dbC5 1 := by
  intro h
  have hiff := h
    ⟨1, "owner", MusicSource.spotify, "sp", "P", none, none, 0,
      PlaylistStatus.failed, 0, 0, 0⟩
    ⟨1, "owner", MusicSource.spotify, "sp", "P", none, none, 0,
      PlaylistStatus.ready, 0, 0, 0⟩
    rfl rfl
  exact (hiff.mp rfl).2 rfl

/-- Witness for C5's amended theorem at a concrete database. -/
theorem updatePlaylistCounts_spec_witness :
    playlistById (updatePlaylistCounts dbC5 1).1 1 = some
      ⟨1, "owner", MusicSource.spotify, "sp", "P", none, none, 0,
        PlaylistStatus.ready, 0, 0, 0⟩ ∧
    (updatePlaylistCounts dbC5 1).2.readyCount +
      (updatePlaylistCounts dbC5 1).2.unmatchedCount = 0 :=
  ⟨(updatePlaylistCounts_spec dbC5 1
      ⟨1, "owner", MusicSource.spotify, "sp", "P", none, none, 0,
        PlaylistStatus.failed, 0, 0, 0⟩ rfl).1,
   (updatePlaylistCounts_spec dbC5 1
      ⟨1, "owner", MusicSource.spotify, "sp", "P", none, none, 0,
        PlaylistStatus.failed, 0, 0, 0⟩ rfl).2.2.2.2 rfl rfl⟩

/-! ## Track-persistence frame theorems (claim C9) -/

theorem forall₂_map_self {α : Type} (f : α → α) (R : α → α → Prop) (l : List α)
    (h : ∀ x ∈ l, R x (f x)) : List.Forall₂ R l (l.map f) := by
  induction l with
  | nil => exact List.Forall₂.nil
  | cons x xs ih =>
    exact List.Forall₂.cons (h x (List.mem_cons_self x xs))
      (ih fun y hy => h y (List.mem_cons_of_mem _ hy))

/-- Claim C9 (amended): `markTrackReady` patches exactly the addressed track
to `ready`, setting `appleMusicId`, `releaseYear` and the optional
`previewUrl`, `imageUrl`, `isrc` from the match, and **overwrites** `title`
and `artistNames` with the match's canonical values (no album name is stored
at all); `position`, `playlistId`, `spotifyTrackId` and `unmatchedReason` are
unchanged, and every other track is untouched. -/
theorem markTrackReady_frame (db : DB) (a : MarkReadyArgs) :
    List.Forall₂ (fun t t' =>
      (t.id ≠ a.trackId → t' = t) ∧
      (t.id = a.trackId →
        t'.status = TrackStatus.ready ∧
        t'.appleMusicId = some a.appleMusicId ∧
        t'.title = a.title ∧
        t'.artistNames = a.artistNames ∧
        t'.releaseYear = some a.releaseYear ∧
        t'.previewUrl = a.previewUrl ∧
        t'.imageUrl = a.imageUrl ∧
        t'.isrc = a.isrc ∧
        t'.position = t.position ∧
        t'.playlistId = t.playlistId ∧
        t'.spotifyTrackId = t.spotifyTrackId ∧
        t'.unmatchedReason = t.unmatchedReason))
      db.tracks (markTrackReady db a).tracks := by
  refine forall₂_map_self _ _ _ (fun t _ => ?_)
  by_cases h : t.id = a.trackId
  · refine ⟨fun hne => absurd h hne, fun _ => ?_⟩
    rw [if_pos h]
    exact ⟨rfl, rfl, rfl, rfl, rfl, rfl, rfl, rfl, rfl, rfl, rfl, rfl⟩
  · exact ⟨fun _ => if_neg h, fun heq => absurd heq h⟩

/-- The frame rule claim C9 states, read literally: the matched track keeps
its source title and artist names. -/
def markReadyClaimC9 (db : DB) (a : MarkReadyArgs) : Prop :=
  List.Forall₂ (fun t t' =>
    t.id = a.trackId →
      t'.status = TrackStatus.ready ∧
      t'.appleMusicId = some a.appleMusicId ∧
      t'.title = t.title ∧
      t'.artistNames = t.artistNames ∧
      t'.position = t.position ∧
      t'.playlistId = t.playlistId ∧
      t'.spotifyTrackId = t.spotifyTrackId)
    db.tracks (markTrackReady db a).tracks

/-- A database with one pending track carrying its source metadata. -/
def dbC9 : DB :=
  { playlists := [⟨1, "owner", MusicSource.spotify, "sp", "P", none, none, 0,
      PlaylistStatus.processing, 1, 0, 0⟩]
    tracks := [⟨21, 1, 5, TrackStatus.pending, "Source Title", ["Source Artist"],
      none, none, some "sp21", some "USRC10000001", none, none, none⟩]
    nextId := 30 }

/-- The `markTrackReady` call the coordinator issues for a canonical match. -/
def aC9 : MarkReadyArgs :=
  { trackId := 21
    appleMusicId := "am21"
    title := "Canonical Title"
    artistNames := ["Canonical Artist"]
    releaseYear := 2004
    previewUrl := some "https://preview"
    imageUrl := some "https://art"
    isrc := some "USRC10000001" }

/-- Counterexample for C9 as stated: the persisted record's `title` is the
match's canonical title, not the unchanged source title. -/
theorem markTrackReady_claim_counterexample : ¬ markReadyClaimC9 dbC9 aC9 := by
  intro h
  cases h with
  | cons hR _ =>
    have htitle := (hR rfl).2.2.1
    exact absurd htitle (by decide)

/-- Witness for C9's amended theorem: on the concrete database the patched
record is `ready` with the canonical title, and its position is preserved. -/
theorem markTrackReady_frame_witness :
    ((markTrackReady dbC9 aC9).tracks.head?).map TrackRec.status =
      some TrackStatus.ready ∧
    ((markTrackReady dbC9 aC9).tracks.head?).map TrackRec.position = some 5 := by
  have h := markTrackReady_frame dbC9 aC9
  cases h with
  | cons hR _ =>
    have hready := (hR.2 rfl).1
    have hpos := (hR.2 rfl).2.2.2.2.2.2.2.2.1
    exact ⟨congrArg Option.some hready, congrArg Option.some hpos⟩

/-! ## Import Intake upsert theorems (claim C7) -/

/-- The rows the upsert's insertion loop produces, with their running ids. -/
def seedList (source : MusicSource) (pid : Nat) : Nat → List UpsertTrackArg → List TrackRec
  | _, [] => []
  | n, t :: ts => seedTrack source pid n t :: seedList source pid (n + 1) ts

theorem upsert_fold_shape (source : MusicSource) (pid : Nat) :
    ∀ (ts : List UpsertTrackArg) (d : DB),
      (ts.foldl (fun d t =>
        { d with
          tracks := d.tracks ++ [seedTrack source pid d.nextId t]
          nextId := d.nextId + 1 }) d) =
      { d with
        tracks := d.tracks ++ seedList source pid d.nextId ts
        nextId := d.nextId + ts.length } := by
  intro ts
  induction ts with
  | nil => intro d; simp [seedList]
  | cons t ts ih =>
    intro d
    rw [List.foldl_cons, ih]
    simp [seedList, List.append_assoc]
    omega

theorem seedList_playlistId (source : MusicSource) (pid : Nat) :
    ∀ (n : Nat) (ts : List UpsertTrackArg) (t : TrackRec),
      t ∈ seedList source pid n ts → t.playlistId = pid := by
  intro n ts
  induction ts generalizing n with
  | nil => intro t ht; cases ht
  | cons a as ih =>
    intro t ht
    rcases List.mem_cons.mp ht with rfl | ht'
    · rfl
    · exact ih _ t ht'

theorem seedList_forall₂ (source : MusicSource) (pid : Nat) :
    ∀ (n : Nat) (ts : List UpsertTrackArg),
      List.Forall₂ (fun (t : TrackRec) (a : UpsertTrackArg) =>
          t.position = a.position ∧ t.title = a.title ∧ t.artistNames = a.artistNames ∧
          t.releaseYear = a.releaseYear ∧ t.imageUrl = a.imageUrl ∧
          t.spotifyTrackId = a.spotifyTrackId ∧ t.isrc = a.isrc ∧
          t.appleMusicId = a.appleMusicId ∧ t.previewUrl = a.previewUrl ∧
          t.unmatchedReason = none ∧ t.status = seededStatus source a)
        (seedList source pid n ts) ts := by
  intro n ts
  induction ts generalizing n with
  | nil => exact List.Forall₂.nil
  | cons a as ih =>
    exact List.Forall₂.cons
      ⟨rfl, rfl, rfl, rfl, rfl, rfl, rfl, rfl, rfl, rfl, rfl⟩ (ih (n + 1))

theorem find?_id_of_nodup (l : List PlaylistRec) (p0 : PlaylistRec)
    (hmem : p0 ∈ l) (hnd : (l.map PlaylistRec.id).Nodup) :
    l.find? (fun q => q.id == p0.id) = some p0 := by
  induction l with
  | nil => cases hmem
  | cons q l ih =>
    rcases List.mem_cons.mp hmem with rfl | hmem'
    · exact List.find?_cons_of_pos _ (by simp)
    · have hne : q.id ≠ p0.id := by
        intro heq
        have hq : p0.id ∈ l.map PlaylistRec.id :=
          List.mem_map_of_mem PlaylistRec.id hmem'
        rw [List.map_cons] at hnd
        rw [← heq] at hq
        exact (List.nodup_cons.mp hnd).1 hq
      rw [List.find?_cons_of_neg _ (by simp [hne])]
      exact ih hmem' (by rw [List.map_cons] at hnd; exact (List.nodup_cons.mp hnd).2)

/-- Claim C7 (amended): re-upserting an existing `(owner, sourcePlaylistId)`
playlist replaces its tracks with exactly the new list (each row seeded
`ready` iff the source is the target catalog or the pre-resolved fields are
all truthy — a `Some ""` id or preview, or year `0`, seeds `pending`), sets
`totalTracks` to the new length and resets `readyTracks` to the new length
for an Apple Music source and to `0` otherwise (not to the count of `ready`
rows in the new set) and `unmatchedTracks` to `0`. -/
theorem upsertPlaylistWithTracks_replaces (db : DB) (now : Nat) (args : UpsertArgs)
    (p0 : PlaylistRec)
    (hex : db.playlists.filter (fun p =>
      p.ownerUserId == args.ownerUserId && p.sourcePlaylistId == args.sourcePlaylistId) = [p0])
    (hnodup : (db.playlists.map PlaylistRec.id).Nodup) :
    ∃ db', upsertPlaylistWithTracks db now args = some (db', p0.id) ∧
      List.Forall₂ (fun (t : TrackRec) (a : UpsertTrackArg) =>
          t.position = a.position ∧ t.title = a.title ∧ t.artistNames = a.artistNames ∧
          t.releaseYear = a.releaseYear ∧ t.imageUrl = a.imageUrl ∧
          t.spotifyTrackId = a.spotifyTrackId ∧ t.isrc = a.isrc ∧
          t.appleMusicId = a.appleMusicId ∧ t.previewUrl = a.previewUrl ∧
          t.unmatchedReason = none ∧ t.status = seededStatus args.source a)
        (db'.tracks.filter (fun t => t.playlistId == p0.id)) args.tracks ∧
      playlistById db' p0.id = some
        { p0 with
          name := args.name
          description := args.description
          imageUrl := args.imageUrl
          importedAt := now
          status := if args.source == MusicSource.appleMusic
                    then PlaylistStatus.ready else PlaylistStatus.processing
          totalTracks := args.tracks.length
          readyTracks := if args.source == MusicSource.appleMusic
                         then args.tracks.length else 0
          unmatchedTracks := 0 } := by
  have hmem : p0 ∈ db.playlists := by
    have : p0 ∈ db.playlists.filter (fun p =>
        p.ownerUserId == args.ownerUserId && p.sourcePlaylistId == args.sourcePlaylistId) := by
      rw [hex]; exact List.mem_cons_self _ _
    exact List.mem_of_mem_filter this
  have hfind0 : db.playlists.find? (fun q => q.id == p0.id) = some p0 :=
    find?_id_of_nodup db.playlists p0 hmem hnodup
  refine ⟨_, by simp only [upsertPlaylistWithTracks, hex]; exact rfl, ?_, ?_⟩
  · -- the playlist's rows after the upsert are exactly the seeded rows
    simp only [insertUpsertTracks, upsert_fold_shape]
    have hcommon : List.Forall₂ (fun (t : TrackRec) (a : UpsertTrackArg) =>
        t.position = a.position ∧ t.title = a.title ∧ t.artistNames = a.artistNames ∧
        t.releaseYear = a.releaseYear ∧ t.imageUrl = a.imageUrl ∧
        t.spotifyTrackId = a.spotifyTrackId ∧ t.isrc = a.isrc ∧
        t.appleMusicId = a.appleMusicId ∧ t.previewUrl = a.previewUrl ∧
        t.unmatchedReason = none ∧ t.status = seededStatus args.source a)
        ((db.tracks.filter (fun t => !(t.playlistId == p0.id)) ++
          seedList args.source p0.id db.nextId args.tracks).filter
            (fun t => t.playlistId == p0.id)) args.tracks := by
      rw [List.filter_append]
      have hdel : (db.tracks.filter (fun t => !(t.playlistId == p0.id))).filter
          (fun t => t.playlistId == p0.id) = [] := by
        rw [List.filter_eq_nil_iff]
        intro t ht
        have := List.of_mem_filter ht
        simp only [Bool.not_eq_true'] at this
        simp [this]
      have hkeep : (seedList args.source p0.id db.nextId args.tracks).filter
          (fun t => t.playlistId == p0.id) = seedList args.source p0.id db.nextId args.tracks := by
        rw [List.filter_eq_self]
        intro t ht
        simp [seedList_playlistId args.source p0.id db.nextId args.tracks t ht]
      rw [hdel, hkeep, List.nil_append]
      exact seedList_forall₂ args.source p0.id db.nextId args.tracks
    by_cases hsrc : args.source == MusicSource.appleMusic
    · rw [if_pos hsrc]; exact hcommon
    · rw [if_neg hsrc]; exact hcommon
  · -- the playlist record after the upsert
    simp only [insertUpsertTracks, upsert_fold_shape]
    by_cases hsrc : args.source == MusicSource.appleMusic
    · rw [if_pos hsrc, playlistById]
      dsimp only
      rw [find?_id_map_patch _ p0.id
        (fun p => { p with readyTracks := args.tracks.length }) (fun q => rfl)]
      rw [find?_id_map_patch db.playlists p0.id
        (fun p =>
          { p with
            name := args.name
            description := args.description
            imageUrl := args.imageUrl
            importedAt := now
            status := if args.source == MusicSource.appleMusic
                      then PlaylistStatus.ready else PlaylistStatus.processing
            totalTracks := args.tracks.length
            readyTracks := 0
            unmatchedTracks := 0 })
        (fun q => rfl)]
      rw [hfind0]
      simp [hsrc]
    · rw [if_neg hsrc, playlistById]
      dsimp only
      rw [find?_id_map_patch db.playlists p0.id
        (fun p =>
          { p with
            name := args.name
            description := args.description
            imageUrl := args.imageUrl
            importedAt := now
            status := if args.source == MusicSource.appleMusic
                      then PlaylistStatus.ready else PlaylistStatus.processing
            totalTracks := args.tracks.length
            readyTracks := 0
            unmatchedTracks := 0 })
        (fun q => rfl)]
      rw [hfind0]
      have hsrc' : (args.source == MusicSource.appleMusic) = false :=
        Bool.not_eq_true _ |>.mp hsrc
      simp [hsrc']

/-- Claim C7, read literally: re-upserting replaces the tracks with exactly
the new list, each row `ready` when the source is the target catalog or the
row *carries* a pre-resolved id, preview and release year, and the stored
`readyTracks`/`unmatchedTracks` reflect the new set (its per-status counts). -/
def upsertClaimC7 (db : DB) (now : Nat) (args : UpsertArgs) : Prop :=
  ∀ p0, db.playlists.filter (fun p =>
      p.ownerUserId == args.ownerUserId && p.sourcePlaylistId == args.sourcePlaylistId) = [p0] →
    ∀ db' pid, upsertPlaylistWithTracks db now args = some (db', pid) →
      List.Forall₂ (fun (t : TrackRec) (a : UpsertTrackArg) =>
          t.position = a.position ∧ t.title = a.title ∧
          t.status = (if args.source = MusicSource.appleMusic ∨
              (a.appleMusicId.isSome ∧ a.previewUrl.isSome ∧ a.releaseYear.isSome)
            then TrackStatus.ready else TrackStatus.pending))
        (db'.tracks.filter (fun t => t.playlistId == pid)) args.tracks ∧
      (playlistById db' pid).map PlaylistRec.totalTracks = some args.tracks.length ∧
      (playlistById db' pid).map PlaylistRec.readyTracks =
        some ((db'.tracks.filter (fun t => t.playlistId == pid)).filter
          (fun t => t.status == TrackStatus.ready)).length ∧
      (playlistById db' pid).map PlaylistRec.unmatchedTracks =
        some ((db'.tracks.filter (fun t => t.playlistId == pid)).filter
          (fun t => t.status == TrackStatus.unmatched)).length

/-- The existing playlist of the C7 scenario. -/
def p0C7 : PlaylistRec :=
  ⟨1, "owner", MusicSource.spotify, "sp", "Old", none, none, 0,
    PlaylistStatus.ready, 1, 1, 0⟩

/-- A database holding that playlist and one previously imported track. -/
def dbC7 : DB :=
  { playlists := [p0C7]
    tracks := [⟨10, 1, 0, TrackStatus.ready, "Old Track", ["z"], some 1990,
      none, some "olds", none, some "amOld", some "pOld", none⟩]
    nextId := 11 }

/-- A Spotify re-upsert whose first track is fully pre-resolved and whose
second track carries a pre-resolved id that is the empty string. -/
def argsC7 : UpsertArgs :=
  { ownerUserId := "owner"
    source := MusicSource.spotify
    sourcePlaylistId := "sp"
    name := "New"
    description := none
    imageUrl := none
    tracks :=
      [⟨0, "A", ["x"], some 1999, none, some "s1", none, some "amA", some "pA"⟩,
       ⟨1, "B", ["y"], some 2020, none, some "s2", none, some "", some "pB"⟩] }

/-- Counterexample for C7 as stated: after the Spotify re-upsert the new set
contains one `ready` row (the pre-resolved first track), but the playlist's
`readyTracks` is reset to `0`, so the stored counts do not reflect the new
set; the second track also seeds `pending` despite carrying all three
pre-resolved fields, because its empty-string id is falsy. -/
theorem upsertPlaylistWithTracks_claim_counterexample :
    ¬ upsertClaimC7 dbC7 5 argsC7 := by
  intro h
  have hc := h p0C7 rfl _ _ rfl
  exact absurd hc.2.2.1 (by decide)

/-- Witness for C7's amended theorem on the concrete re-upsert. -/
theorem upsertPlaylistWithTracks_replaces_witness :
    dbC7.playlists.filter (fun p =>
      p.ownerUserId == argsC7.ownerUserId &&
      p.sourcePlaylistId == argsC7.sourcePlaylistId) = [p0C7] ∧
    ∃ db', upsertPlaylistWithTracks dbC7 5 argsC7 = some (db', p0C7.id) ∧
      playlistById db' p0C7.id = some
        { p0C7 with
          name := argsC7.name
          description := argsC7.description
          imageUrl := argsC7.imageUrl
          importedAt := 5
          status := if argsC7.source == MusicSource.appleMusic
                    then PlaylistStatus.ready else PlaylistStatus.processing
          totalTracks := argsC7.tracks.length
          readyTracks := if argsC7.source == MusicSource.appleMusic
                         then argsC7.tracks.length else 0
          unmatchedTracks := 0 } := by
  obtain ⟨db', hrun, _, hrec⟩ :=
    upsertPlaylistWithTracks_replaces dbC7 5 argsC7 p0C7 rfl (by decide)
  exact ⟨rfl, db', hrun, hrec⟩

/-! ## Batch Coordinator theorems (claim C4) -/

/-- The per-record effect of persisting one track's resolution. -/
def trackPatch (api : CatalogAPI) (storefront : String) (t : PendingTrack)
    (tr : TrackRec) : TrackRec :=
  if tr.id = t.id then
    match resolveTrackToAppleMusic api (trackResolveArgs storefront t) with
    | .matched m =>
      { tr with
        status := TrackStatus.ready
        appleMusicId := some m.appleMusicId
        title := m.title
        artistNames := [m.artistName]
        releaseYear := some m.releaseYear
        previewUrl := m.previewUrl
        imageUrl := m.artworkUrl
        isrc := m.isrc }
    | .unmatched reason =>
      { tr with status := TrackStatus.unmatched, unmatchedReason := some reason }
  else tr

/-- The per-record effect of a whole batch, applied left to right. -/
def batchPatch (api : CatalogAPI) (storefront : String) :
    List PendingTrack → TrackRec → TrackRec
  | [], tr => tr
  | t :: ts, tr => batchPatch api storefront ts (trackPatch api storefront t tr)

theorem persistResolution_shape (api : CatalogAPI) (st : String) (db : DB)
    (t : PendingTrack) :
    persistResolution api st db t =
      { db with tracks := db.tracks.map (trackPatch api st t) } := by
  cases hr : resolveTrackToAppleMusic api (trackResolveArgs st t) with
  | matched m =>
    simp only [persistResolution, hr, markTrackReady]
    congr 1
    refine List.map_congr_left (fun tr _ => ?_)
    rw [trackPatch, hr]
  | unmatched reason =>
    simp only [persistResolution, hr, markTrackUnmatched]
    congr 1
    refine List.map_congr_left (fun tr _ => ?_)
    rw [trackPatch, hr]

theorem trackPatch_id (api : CatalogAPI) (st : String) (t : PendingTrack)
    (tr : TrackRec) : (trackPatch api st t tr).id = tr.id := by
  rw [trackPatch]
  by_cases h : tr.id = t.id
  · rw [if_pos h]
    cases resolveTrackToAppleMusic api (trackResolveArgs st t) <;> rfl
  · rw [if_neg h]

theorem trackPatch_playlistId (api : CatalogAPI) (st : String) (t : PendingTrack)
    (tr : TrackRec) : (trackPatch api st t tr).playlistId = tr.playlistId := by
  rw [trackPatch]
  by_cases h : tr.id = t.id
  · rw [if_pos h]
    cases resolveTrackToAppleMusic api (trackResolveArgs st t) <;> rfl
  · rw [if_neg h]

theorem trackPatch_of_ne (api : CatalogAPI) (st : String) (t : PendingTrack)
    (tr : TrackRec) (h : tr.id ≠ t.id) : trackPatch api st t tr = tr := by
  rw [trackPatch, if_neg h]

theorem trackPatch_status_of_eq (api : CatalogAPI) (st : String) (t : PendingTrack)
    (tr : TrackRec) (h : tr.id = t.id) :
    (trackPatch api st t tr).status ≠ TrackStatus.pending := by
  rw [trackPatch, if_pos h]
  cases resolveTrackToAppleMusic api (trackResolveArgs st t) <;> simp

theorem batchPatch_id (api : CatalogAPI) (st : String) (ts : List PendingTrack) :
    ∀ tr : TrackRec, (batchPatch api st ts tr).id = tr.id := by
  induction ts with
  | nil => intro tr; rfl
  | cons t ts ih =>
    intro tr
    rw [batchPatch, ih, trackPatch_id]

theorem batchPatch_playlistId (api : CatalogAPI) (st : String) (ts : List PendingTrack) :
    ∀ tr : TrackRec, (batchPatch api st ts tr).playlistId = tr.playlistId := by
  induction ts with
  | nil => intro tr; rfl
  | cons t ts ih =>
    intro tr
    rw [batchPatch, ih, trackPatch_playlistId]

theorem batchPatch_of_not_mem (api : CatalogAPI) (st : String) (ts : List PendingTrack) :
    ∀ tr : TrackRec, tr.id ∉ ts.map PendingTrack.id → batchPatch api st ts tr = tr := by
  induction ts with
  | nil => intro tr _; rfl
  | cons t ts ih =>
    intro tr h
    rw [List.map_cons] at h
    have hne : tr.id ≠ t.id := fun he => h (he ▸ List.mem_cons_self _ _)
    have hnm : tr.id ∉ ts.map PendingTrack.id := fun hm => h (List.mem_cons_of_mem _ hm)
    rw [batchPatch, trackPatch_of_ne api st t tr hne, ih tr hnm]

theorem batchPatch_status_or (api : CatalogAPI) (st : String) (ts : List PendingTrack) :
    ∀ tr : TrackRec, (batchPatch api st ts tr).status = tr.status ∨
      (batchPatch api st ts tr).status ≠ TrackStatus.pending := by
  induction ts with
  | nil => intro tr; exact Or.inl rfl
  | cons t ts ih =>
    intro tr
    rw [batchPatch]
    by_cases h : tr.id = t.id
    · rcases ih (trackPatch api st t tr) with heq | hne
      · rw [heq]
        exact Or.inr (trackPatch_status_of_eq api st t tr h)
      · exact Or.inr hne
    · rw [trackPatch_of_ne api st t tr h]
      exact ih tr

theorem batchPatch_status_of_mem (api : CatalogAPI) (st : String) (ts : List PendingTrack) :
    ∀ tr : TrackRec, tr.id ∈ ts.map PendingTrack.id →
      (batchPatch api st ts tr).status ≠ TrackStatus.pending := by
  induction ts with
  | nil => intro tr h; cases h
  | cons t ts ih =>
    intro tr h
    rw [batchPatch]
    by_cases hid : tr.id = t.id
    · rcases batchPatch_status_or api st ts (trackPatch api st t tr) with heq | hne
      · rw [heq]
        exact trackPatch_status_of_eq api st t tr hid
      · exact hne
    · rw [trackPatch_of_ne api st t tr hid]
      rw [List.map_cons] at h
      rcases List.mem_cons.mp h with heq | hmem
      · exact absurd heq hid
      · exact ih tr hmem

theorem runBatchLoop_shape (api : CatalogAPI) (st : String) :
    ∀ (ts : List PendingTrack) (db : DB),
      runBatchLoop api st ts db =
        ({ db with tracks := db.tracks.map (batchPatch api st ts) },
          ts.map (trackResolveArgs st),
          ts.map (fun _ => RATE_LIMIT_DELAY_MS)) := by
  intro ts
  induction ts with
  | nil =>
    intro db
    rw [runBatchLoop]
    have hmap : db.tracks.map (batchPatch api st []) = db.tracks := by
      rw [show batchPatch api st [] = id from funext fun tr => rfl, List.map_id]
    rw [List.map_nil, List.map_nil, hmap]
  | cons t ts ih =>
    intro db
    rw [runBatchLoop, persistResolution_shape, ih]
    have hmap : (db.tracks.map (trackPatch api st t)).map (batchPatch api st ts) =
        db.tracks.map (batchPatch api st (t :: ts)) := by
      rw [List.map_map]
      exact List.map_congr_left (fun tr _ => rfl)
    rw [List.map_cons, List.map_cons]
    dsimp only
    rw [hmap]

theorem getPendingTracks_length (db : DB) (pid : Nat) :
    (getPendingTracks db pid BATCH_SIZE).length =
      min BATCH_SIZE (pendingOf db.tracks pid).length := by
  rw [getPendingTracks, List.length_map, getPendingTracksQuery, List.length_take,
      indexScanPending, (List.perm_insertionSort _ _).length_eq]

theorem countP_not_eq (q : α → Bool) (l : List α) :
    List.countP (fun a => !(q a)) l = l.length - List.countP q l := by
  induction l with
  | nil => rfl
  | cons a l ih =>
    have hle := List.countP_le_length (p := q) (l := l)
    cases hq : q a <;> (simp [List.countP_cons, hq, ih]; try omega)

theorem pending_after_batch (api : CatalogAPI) (st : String) (db : DB) (pid : Nat)
    (hnodup : (db.tracks.map TrackRec.id).Nodup) :
    (pendingOf (db.tracks.map
        (batchPatch api st (getPendingTracks db pid BATCH_SIZE))) pid).length
      = (pendingOf db.tracks pid).length -
        (getPendingTracks db pid BATCH_SIZE).length := by
  have hids : (getPendingTracks db pid BATCH_SIZE).map PendingTrack.id =
      (getPendingTracksQuery db pid BATCH_SIZE).map TrackRec.id := by
    rw [getPendingTracks, List.map_map]
    exact List.map_congr_left (fun t _ => rfl)
  have hsub : List.Sublist (pendingOf db.tracks pid) db.tracks := List.filter_sublist _
  have hnodupP : ((pendingOf db.tracks pid).map TrackRec.id).Nodup :=
    List.Nodup.sublist (List.Sublist.map TrackRec.id hsub) hnodup
  have hperm : List.Perm (indexScanPending db pid) (pendingOf db.tracks pid) :=
    List.perm_insertionSort _ _
  have hnodupS : ((indexScanPending db pid).map TrackRec.id).Nodup :=
    ((hperm.map TrackRec.id).nodup_iff).mpr hnodupP
  -- pointwise effect of the batch patch on the pending predicate
  have hcongr : ∀ tr ∈ db.tracks,
      ((batchPatch api st (getPendingTracks db pid BATCH_SIZE) tr).playlistId == pid &&
        (batchPatch api st (getPendingTracks db pid BATCH_SIZE) tr).status ==
          TrackStatus.pending) = true ↔
      ((!(decide (tr.id ∈ (getPendingTracks db pid BATCH_SIZE).map PendingTrack.id))) &&
        (tr.playlistId == pid && tr.status == TrackStatus.pending)) = true := by
    intro tr _
    by_cases hm : tr.id ∈ (getPendingTracks db pid BATCH_SIZE).map PendingTrack.id
    · have hstat := batchPatch_status_of_mem api st _ tr hm
      constructor
      · intro hcontra
        exfalso
        simp only [Bool.and_eq_true_iff, beq_iff_eq] at hcontra
        exact hstat hcontra.2
      · intro hcontra
        exfalso
        simp [hm] at hcontra
    · rw [batchPatch_of_not_mem api st _ tr hm]
      simp [hm]
  show ((db.tracks.map (batchPatch api st (getPendingTracks db pid BATCH_SIZE))).filter
      (fun x => x.playlistId == pid && x.status == TrackStatus.pending)).length = _
  rw [← List.countP_eq_length_filter, List.countP_map]
  simp only [Function.comp_def]
  rw [List.countP_congr hcongr, ← List.countP_filter]
  show List.countP _ (pendingOf db.tracks pid) = _
  rw [countP_not_eq]
  -- the number of pending rows whose id was batched is the batch length
  have hcount : List.countP
      (fun tr => decide (tr.id ∈ (getPendingTracks db pid BATCH_SIZE).map PendingTrack.id))
      (pendingOf db.tracks pid) = (getPendingTracks db pid BATCH_SIZE).length := by
    rw [← (hperm.countP_eq _)]
    have hQ : getPendingTracksQuery db pid BATCH_SIZE =
        (indexScanPending db pid).take BATCH_SIZE := rfl
    conv_lhs => rw [← List.take_append_drop BATCH_SIZE (indexScanPending db pid)]
    rw [List.countP_append]
    have hdisj : List.Disjoint
        (((indexScanPending db pid).take BATCH_SIZE).map TrackRec.id)
        (((indexScanPending db pid).drop BATCH_SIZE).map TrackRec.id) := by
      apply List.disjoint_of_nodup_append
      rw [← List.map_append, List.take_append_drop]
      exact hnodupS
    have htake : List.countP
        (fun tr => decide (tr.id ∈ (getPendingTracks db pid BATCH_SIZE).map PendingTrack.id))
        ((indexScanPending db pid).take BATCH_SIZE) =
        ((indexScanPending db pid).take BATCH_SIZE).length := by
      rw [List.countP_eq_length]
      intro a ha
      rw [decide_eq_true_eq, hids, hQ]
      exact List.mem_map_of_mem TrackRec.id ha
    have hdrop : List.countP
        (fun tr => decide (tr.id ∈ (getPendingTracks db pid BATCH_SIZE).map PendingTrack.id))
        ((indexScanPending db pid).drop BATCH_SIZE) = 0 := by
      rw [List.countP_eq_zero]
      intro a ha
      rw [decide_eq_true_eq, hids, hQ]
      intro hmem
      exact hdisj hmem (List.mem_map_of_mem TrackRec.id ha)
    rw [htake, hdrop, Nat.add_zero, getPendingTracks, List.length_map]
    rfl
  rw [hcount]

theorem updatePlaylistCounts_pendingCount (db : DB) (pid : Nat) :
    (updatePlaylistCounts db pid).2.pendingCount = (pendingOf db.tracks pid).length := by
  show ((db.tracks.filter (fun t => t.playlistId == pid)).filter
      (fun t => t.status == TrackStatus.pending)).length = _
  rw [List.filter_filter]
  rw [pendingOf]
  congr 1
  exact List.filter_congr (fun t _ => by rw [Bool.and_comm])

/-- One nonempty coordinator invocation, characterized: the calls, delays,
recomputed pending count, successor decision, and database effect. -/
theorem processPlaylistBatch_step (api : CatalogAPI) (sf : Option String) (pid : Nat)
    (db : DB)
    (hnodup : (db.tracks.map TrackRec.id).Nodup)
    (hpos : (pendingOf db.tracks pid).length ≠ 0) :
    ∃ db2 counts,
      processPlaylistBatch api pid sf db = (db2,
        { resolveCalls := (getPendingTracks db pid BATCH_SIZE).map
            (trackResolveArgs (sf.getD "us"))
          delaysMs := (getPendingTracks db pid BATCH_SIZE).map (fun _ => RATE_LIMIT_DELAY_MS)
          countsAfter := counts
          nextRunDelayMs := if counts.pendingCount > 0 then some 0 else none }) ∧
      counts.pendingCount =
        (pendingOf db.tracks pid).length - min BATCH_SIZE (pendingOf db.tracks pid).length ∧
      db2.tracks.map TrackRec.id = db.tracks.map TrackRec.id ∧
      (pendingOf db2.tracks pid).length = counts.pendingCount := by
  have hlen : (getPendingTracks db pid BATCH_SIZE).length =
      min BATCH_SIZE (pendingOf db.tracks pid).length := getPendingTracks_length db pid
  have hne : ¬ (getPendingTracks db pid BATCH_SIZE).length = 0 := by
    rw [hlen]
    simp only [BATCH_SIZE]
    omega
  refine ⟨(updatePlaylistCounts
      { db with tracks := db.tracks.map (batchPatch api (sf.getD "us") (getPendingTracks db pid BATCH_SIZE)) } pid).1,
    (updatePlaylistCounts
      { db with tracks := db.tracks.map (batchPatch api (sf.getD "us") (getPendingTracks db pid BATCH_SIZE)) } pid).2,
    ?_, ?_, ?_, ?_⟩
  · simp only [processPlaylistBatch, hne, if_false]
    rw [runBatchLoop_shape]
  · rw [updatePlaylistCounts_pendingCount]
    show (pendingOf (db.tracks.map
        (batchPatch api (sf.getD "us") (getPendingTracks db pid BATCH_SIZE))) pid).length = _
    rw [pending_after_batch api (sf.getD "us") db pid hnodup, hlen]
  · show (db.tracks.map
        (batchPatch api (sf.getD "us") (getPendingTracks db pid BATCH_SIZE))).map
          TrackRec.id = _
    rw [List.map_map]
    exact List.map_congr_left (fun tr _ => batchPatch_id api (sf.getD "us") _ tr)
  · rw [updatePlaylistCounts_pendingCount]
    rfl

/-- Unfolding of the coordinator driver when the invocation schedules a
successor. -/
theorem runCoordinator_succ_some (api : CatalogAPI) (pid : Nat) (sf : Option String)
    (fuel : Nat) (db db1 : DB) (log : InvLog)
    (hstep : processPlaylistBatch api pid sf db = (db1, log))
    (hsched : log.nextRunDelayMs = some 0) :
    runCoordinator api pid sf (fuel + 1) db =
      ((runCoordinator api pid sf fuel db1).1,
        log :: (runCoordinator api pid sf fuel db1).2) := by
  rw [runCoordinator, hstep]
  dsimp only
  rw [hsched]

/-- Unfolding of the coordinator driver when the invocation stops. -/
theorem runCoordinator_succ_none (api : CatalogAPI) (pid : Nat) (sf : Option String)
    (fuel : Nat) (db db1 : DB) (log : InvLog)
    (hstep : processPlaylistBatch api pid sf db = (db1, log))
    (hsched : log.nextRunDelayMs = none) :
    runCoordinator api pid sf (fuel + 1) db = (db1, [log]) := by
  rw [runCoordinator, hstep]
  dsimp only
  rw [hsched]

theorem processPlaylistBatch_invoke (api : CatalogAPI) (sf : Option String) (pid : Nat)
    (db : DB)
    (hnodup : (db.tracks.map TrackRec.id).Nodup)
    (hpos : (pendingOf db.tracks pid).length ≠ 0) :
    ∃ db2 log,
      processPlaylistBatch api pid sf db = (db2, log) ∧
      log.resolveCalls.length = min BATCH_SIZE (pendingOf db.tracks pid).length ∧
      log.delaysMs = List.replicate log.resolveCalls.length RATE_LIMIT_DELAY_MS ∧
      log.countsAfter.pendingCount =
        (pendingOf db.tracks pid).length - min BATCH_SIZE (pendingOf db.tracks pid).length ∧
      log.nextRunDelayMs = (if log.countsAfter.pendingCount > 0 then some 0 else none) ∧
      db2.tracks.map TrackRec.id = db.tracks.map TrackRec.id ∧
      (pendingOf db2.tracks pid).length = log.countsAfter.pendingCount := by
  obtain ⟨db2, counts, hstep, hc, hids, hpend⟩ :=
    processPlaylistBatch_step api sf pid db hnodup hpos
  refine ⟨db2, _, hstep, ?_, ?_, hc, rfl, hids, hpend⟩
  · show ((getPendingTracks db pid BATCH_SIZE).map (trackResolveArgs (sf.getD "us"))).length = _
    rw [List.length_map, getPendingTracks_length]
  · show (getPendingTracks db pid BATCH_SIZE).map (fun _ => RATE_LIMIT_DELAY_MS) =
      List.replicate ((getPendingTracks db pid BATCH_SIZE).map
        (trackResolveArgs (sf.getD "us"))).length RATE_LIMIT_DELAY_MS
    rw [List.map_const', List.length_map]

/-- Claim C4: against a playlist with exactly 25 pending tracks and
`BATCH_SIZE = 10`, the coordinator runs exactly 3 invocations resolving
10, 10 and 5 tracks (25 resolver calls in total), awaits the fixed
`RATE_LIMIT_DELAY_MS` after every resolver call, schedules a zero-delay
successor exactly when the recomputed pending count is still positive, and
stops after the third invocation no matter how much fuel remains. -/
theorem coordinator_25_pending (api : CatalogAPI) (sf : Option String) (pid fuel : Nat)
    (db : DB)
    (hnodup : (db.tracks.map TrackRec.id).Nodup)
    (h25 : (pendingOf db.tracks pid).length = 25) :
    (runCoordinator api pid sf (fuel + 3) db).2.map (fun l => l.resolveCalls.length) =
      [10, 10, 5] ∧
    ((runCoordinator api pid sf (fuel + 3) db).2.map (fun l => l.resolveCalls.length)).sum
      = 25 ∧
    (∀ l ∈ (runCoordinator api pid sf (fuel + 3) db).2,
      l.delaysMs = List.replicate l.resolveCalls.length RATE_LIMIT_DELAY_MS ∧
      l.nextRunDelayMs = (if l.countsAfter.pendingCount > 0 then some 0 else none)) ∧
    (runCoordinator api pid sf (fuel + 3) db).2.map (fun l => l.nextRunDelayMs) =
      [some 0, some 0, none] ∧
    (runCoordinator api pid sf (fuel + 3) db).2.length = 3 := by
  -- first invocation: 25 pending, 10 resolved, 15 remain
  obtain ⟨db2, L1, hstep1, hlen1, hdel1, hcnt1, hnext1, hids1, hpend1⟩ :=
    processPlaylistBatch_invoke api sf pid db hnodup (by rw [h25]; omega)
  rw [h25] at hlen1 hcnt1
  norm_num [BATCH_SIZE] at hlen1 hcnt1
  have hn1 : L1.nextRunDelayMs = some 0 := by rw [hnext1, hcnt1]; rfl
  have hnodup2 : (db2.tracks.map TrackRec.id).Nodup := by rw [hids1]; exact hnodup
  rw [hcnt1] at hpend1
  -- second invocation: 15 pending, 10 resolved, 5 remain
  obtain ⟨db3, L2, hstep2, hlen2, hdel2, hcnt2, hnext2, hids2, hpend2⟩ :=
    processPlaylistBatch_invoke api sf pid db2 hnodup2 (by rw [hpend1]; omega)
  rw [hpend1] at hlen2 hcnt2
  norm_num [BATCH_SIZE] at hlen2 hcnt2
  have hn2 : L2.nextRunDelayMs = some 0 := by rw [hnext2, hcnt2]; rfl
  have hnodup3 : (db3.tracks.map TrackRec.id).Nodup := by rw [hids2]; exact hnodup2
  rw [hcnt2] at hpend2
  -- third invocation: 5 pending, 5 resolved, 0 remain, no successor
  obtain ⟨db4, L3, hstep3, hlen3, hdel3, hcnt3, hnext3, hids3, hpend3⟩ :=
    processPlaylistBatch_invoke api sf pid db3 hnodup3 (by rw [hpend2]; omega)
  rw [hpend2] at hlen3 hcnt3
  norm_num [BATCH_SIZE] at hlen3 hcnt3
  have hn3 : L3.nextRunDelayMs = none := by rw [hnext3, hcnt3]; rfl
  -- one driver unfolding per invocation
  have hrunA : runCoordinator api pid sf (fuel + 3) db =
      ((runCoordinator api pid sf (fuel + 2) db2).1,
        L1 :: (runCoordinator api pid sf (fuel + 2) db2).2) :=
    runCoordinator_succ_some api pid sf (fuel + 2) db db2 L1 hstep1 hn1
  have hrunB : runCoordinator api pid sf (fuel + 2) db2 =
      ((runCoordinator api pid sf (fuel + 1) db3).1,
        L2 :: (runCoordinator api pid sf (fuel + 1) db3).2) :=
    runCoordinator_succ_some api pid sf (fuel + 1) db2 db3 L2 hstep2 hn2
  have hrunC : runCoordinator api pid sf (fuel + 1) db3 = (db4, [L3]) :=
    runCoordinator_succ_none api pid sf fuel db3 db4 L3 hstep3 hn3
  have hlogs : (runCoordinator api pid sf (fuel + 3) db).2 = [L1, L2, L3] := by
    rw [hrunA]
    dsimp only
    rw [hrunB]
    dsimp only
    rw [hrunC]
  refine ⟨?_, ?_, ?_, ?_, ?_⟩
  · rw [hlogs]
    simp [hlen1, hlen2, hlen3]
  · rw [hlogs]
    simp [hlen1, hlen2, hlen3]
  · rw [hlogs]
    intro l hl
    simp only [List.mem_cons, List.not_mem_nil, or_false] at hl
    rcases hl with rfl | rfl | rfl
    · exact ⟨hdel1, hnext1⟩
    · exact ⟨hdel2, hnext2⟩
    · exact ⟨hdel3, hnext3⟩
  · rw [hlogs]
    simp [hn1, hn2, hn3]
  · rw [hlogs]
    rfl

/-- A playlist with exactly 25 pending tracks. -/
def db25 : DB :=
  { playlists := [⟨7, "owner", MusicSource.spotify, "sp25", "P", none, none, 0,
      PlaylistStatus.processing, 25, 0, 0⟩]
    tracks := (List.range 25).map (fun i =>
      ⟨i + 1, 7, i, TrackStatus.pending, "t", ["a"], none, none, none, none, none, none, none⟩)
    nextId := 100 }

/-- A catalog capability with a constant single search result. -/
def api25 : CatalogAPI :=
  ⟨fun _ _ => Except.ok none,
   fun q _ _ => Except.ok [⟨q, q, q, q, 2000, none, none, none, none⟩]⟩

/-- Witness for C4: the hypotheses hold for the concrete 25-track playlist,
and the coordinator resolves it in per-invocation batches of 10, 10, 5. -/
theorem coordinator_25_pending_witness :
    (db25.tracks.map TrackRec.id).Nodup ∧
    (pendingOf db25.tracks 7).length = 25 ∧
    (runCoordinator api25 7 none (0 + 3) db25).2.map (fun l => l.resolveCalls.length) =
      [10, 10, 5] :=
  ⟨by decide, by decide,
   (coordinator_25_pending api25 none 7 0 db25 (by decide) (by decide)).1⟩

end SongGame
